import Mathlib

/-!
Verification development for the libdns-njalla DNS provider.

This file shallowly embeds the repository code (client.go, provider.go,
types.go) in Lean 4 and proves the specification claims about it.

Modelling conventions:
* Go machine integers are modelled by Int or Nat; float64 arithmetic in
  calculateBackoff is modelled exactly over the rationals.
* time.Duration values are Int nanoseconds; the rand.Float64 draw in
  calculateBackoff becomes an explicit parameter r with 0 <= r < 1.
* The Go error interface is modelled structurally; error strings that the
  code produces by formatting are kept as structured constructors plus the
  wrapped message, since no claim depends on exact message text.
* HTTP transport, contexts and timers are modelled by an oracle that maps
  each attempt index to its observed outcome; context cancellation and real
  time are outside the claims verified here (the context is never cancelled
  in the modelled runs).
-/

namespace Njalla

/-! ## Resilient transport (client.go) -/

/-- RetryConfig from client.go.  MaxRetries is a Go int; the three duration
and factor fields are float64 or int64 based quantities, modelled over Q. -/
structure RetryConfig where
  MaxRetries : Int
  BaseDelay : ℚ
  MaxDelay : ℚ
  RandomFactor : ℚ
deriving DecidableEq

/-- DefaultRetryConfig from client.go (durations in nanoseconds). -/
def DefaultRetryConfig : RetryConfig :=
  { MaxRetries := 3
    BaseDelay := 100 * 1000000
    MaxDelay := 2 * 1000000000
    RandomFactor := 1 / 2 }

/-- isRetryable from client.go: a non-nil error, a server-error status, or
status 429 is retryable. -/
def isRetryable (err : Option String) (statusCode : Nat) : Bool :=
  match err with
  | some _ => true
  | none => statusCode ≥ 500 || statusCode == 429

/-- calculateBackoff from client.go.  The rand.Float64() draw is the
explicit parameter r; the float64 arithmetic is carried out exactly in Q
(the final truncation to whole nanoseconds is monotone and is omitted). -/
def calculateBackoff (config : RetryConfig) (attempt : Nat) (r : ℚ) : ℚ :=
  let delay := config.BaseDelay * 2 ^ attempt
  let jitter := r * config.RandomFactor * delay
  let delay2 := delay + jitter
  if delay2 > config.MaxDelay then config.MaxDelay else delay2

/-- The body of an HTTP response once read successfully, as client.call
consumes it: it either fails to unmarshal, carries a structured JSON-RPC
error, or is a success envelope (resultOk records whether the result
payload unmarshals into the caller-supplied destination). -/
inductive RespBody where
  | malformed
  | withErr (code : Int) (msg : String)
  | okEnvelope (resultOk : Bool)
deriving DecidableEq

/-- What one delivery attempt of client.call observes: a transport-level
error from httpClient.Do, a body-read error, or a response with a status
code and a body. -/
inductive AttemptOutcome where
  | netErr (msg : String)
  | readErr
  | resp (status : Nat) (body : RespBody)
deriving DecidableEq

/-- The failures that set the lastErr variable of client.call and cause a
retry (or, for a non-retryable HTTP status, an immediate return). -/
inductive RetryErr where
  | netErr (msg : String)
  | readBodyErr
  | httpErr (status : Nat)
  | unmarshalRespErr
deriving DecidableEq

/-- The errors client.call can return, mirroring the fmt.Errorf wrappings
in client.go. -/
inductive CallError where
  | fail (e : RetryErr)
  | apiErr (code : Int) (msg : String)
  | resultErr
  | retriesExhausted (last : Option RetryErr)
deriving DecidableEq

/-- The verdict of one loop iteration of client.call: either the function
returns (done, with none meaning success), or it continues to the next
attempt remembering lastErr (retry). -/
inductive StepRes where
  | done (err : Option CallError)
  | retry (err : RetryErr)
deriving DecidableEq

/-- One iteration of the retry loop in client.call, given the outcome the
attempt observed.  wantResult models whether the caller passed a non-nil
result destination. -/
def callStep (o : AttemptOutcome) (wantResult : Bool) : StepRes :=
  match o with
  | .netErr m => .retry (.netErr m)
  | .readErr => .retry .readBodyErr
  | .resp status body =>
    if status ≥ 400 then
      if isRetryable none status then .retry (.httpErr status)
      else .done (some (.fail (.httpErr status)))
    else
      match body with
      | .malformed => .retry .unmarshalRespErr
      | .withErr c m => .done (some (.apiErr c m))
      | .okEnvelope resultOk =>
        if wantResult && !resultOk then .done (some .resultErr)
        else .done none

/-- Result of client.call in the model: the returned error (none on
success) together with the number of delivery attempts that were made. -/
structure CallOutcome where
  res : Option CallError
  attempts : Nat
deriving DecidableEq

/-- The retry loop of client.call: attempt is the index of the next
attempt, remaining is how many loop iterations are still allowed, lastErr
is the lastErr variable of the Go code. -/
def callAux (outcomes : Nat → AttemptOutcome) (wantResult : Bool) :
    Nat → Nat → Option RetryErr → CallOutcome
  | attempt, 0, lastErr => ⟨some (.retriesExhausted lastErr), attempt⟩
  | attempt, remaining + 1, _lastErr =>
    match callStep (outcomes attempt) wantResult with
    | .done err => ⟨err, attempt + 1⟩
    | .retry e => callAux outcomes wantResult (attempt + 1) remaining (some e)

/-- client.call from client.go, with the per-attempt observations supplied
by the oracle outcomes.  The loop runs for attempt = 0 .. MaxRetries, i.e.
(MaxRetries+1).toNat iterations. -/
def clientCall (maxRetries : Int) (outcomes : Nat → AttemptOutcome)
    (wantResult : Bool) : CallOutcome :=
  callAux outcomes wantResult 0 (maxRetries + 1).toNat none

/-! ## External textual layers (strings, digits, IP addresses)

The record type model and its bit-exact textual representations (IP
formatting, relative-name computation) live in external collaborators
(net/netip and the libdns module).  Modelled from the spec: section 1
declares them an assumed data-mapping layer, so they are embedded here as
executable Lean functions with the documented behavior. -/

/-- strings.TrimSuffix: drops the given ending from s when s ends in it. -/
def strTrimSuffix (s ending : String) : String :=
  if ending.data.isSuffixOf s.data then
    ⟨s.data.take (s.data.length - ending.data.length)⟩
  else s

/-- Modelled from the spec: libdns.RelativeName, the relative-name
computation of the external record layer.  The zone argument arrives with
its trailing dot; the zone ending and then a trailing dot are stripped. -/
def relativeName (fqdn zoneDot : String) : String :=
  strTrimSuffix (strTrimSuffix fqdn zoneDot) "."

/-- The character for a digit value below 16 (decimal then lowercase hex). -/
def digitChar (d : Nat) : Char :=
  Char.ofNat (if d < 10 then 48 + d else 87 + d)

/-- The value of a decimal or lowercase hex digit character. -/
def digitVal (c : Char) : Option Nat :=
  if 48 ≤ c.toNat ∧ c.toNat ≤ 57 then some (c.toNat - 48)
  else if 97 ≤ c.toNat ∧ c.toNat ≤ 102 then some (c.toNat - 87)
  else none

/-- Big-endian digit-string evaluation in base b with accumulator. -/
def parseDigitsAux (b : Nat) : Nat → List Char → Option Nat
  | acc, [] => some acc
  | acc, c :: cs =>
    match digitVal c with
    | some d => if d < b then parseDigitsAux b (acc * b + d) cs else none
    | none => none

/-- Parse a nonempty base-b digit string. -/
def parseDigits (b : Nat) (cs : List Char) : Option Nat :=
  if cs.isEmpty then none else parseDigitsAux b 0 cs

/-- Little-endian base-b digits computed with explicit fuel, so that the
function reduces by iota (it agrees with Nat.digits when given enough
fuel). -/
def digitsFuel (b : Nat) : Nat → Nat → List Nat
  | 0, _ => []
  | _ + 1, 0 => []
  | fuel + 1, n + 1 => (n + 1) % b :: digitsFuel b fuel ((n + 1) / b)

/-- Little-endian base-b digits of n. -/
def natDigits (b n : Nat) : List Nat :=
  digitsFuel b n n

/-- The base-b digit characters of n, most significant first. -/
def natChars (b n : Nat) : List Char :=
  if n = 0 then [digitChar 0] else ((natDigits b n).map digitChar).reverse

/-- Split a character list at every occurrence of sep. -/
def splitOnSep (sep : Char) : List Char → List (List Char)
  | [] => [[]]
  | c :: cs =>
    let rest := splitOnSep sep cs
    if c = sep then [] :: rest
    else
      match rest with
      | [] => [[c]]
      | g :: gs => (c :: g) :: gs

/-- Join character lists with sep between them. -/
def joinSep (sep : Char) : List (List Char) → List Char
  | [] => []
  | [g] => g
  | g :: gs => g ++ sep :: joinSep sep gs

/-- Modelled from the spec: netip.Addr of the external layer, as an IPv4
quad or a list of eight IPv6 groups. -/
inductive IPAddr where
  | v4 (a b c d : Nat)
  | v6 (gs : List Nat)
deriving DecidableEq

/-- Whether the address is IPv4 (netip Is4). -/
def IPAddr.isV4 : IPAddr → Bool
  | .v4 _ _ _ _ => true
  | .v6 _ => false

/-- Structural validity of an address: IPv4 components below 256, IPv6
with exactly eight groups below 65536. -/
def validIP : IPAddr → Bool
  | .v4 a b c d => a < 256 && b < 256 && c < 256 && d < 256
  | .v6 gs => gs.length == 8 && gs.all (· < 65536)

/-- Modelled from the spec: netip Addr.String, dotted decimal for IPv4 and
colon-separated hex groups for IPv6. -/
def ipString : IPAddr → String
  | .v4 a b c d =>
    ⟨joinSep '.' [natChars 10 a, natChars 10 b, natChars 10 c, natChars 10 d]⟩
  | .v6 gs => ⟨joinSep ':' (gs.map (natChars 16))⟩

/-- Modelled from the spec: netip.ParseAddr, the partial inverse of
Addr.String; fails on any text that is not an address. -/
def parseAddr (s : String) : Option IPAddr :=
  let cs := s.data
  if cs.contains ':' then
    match (splitOnSep ':' cs).mapM (parseDigits 16) with
    | some gs =>
      if gs.length == 8 && gs.all (· < 65536) then some (.v6 gs) else none
    | none => none
  else
    match (splitOnSep '.' cs).mapM (parseDigits 10) with
    | some [a, b, c, d] =>
      if a < 256 && b < 256 && c < 256 && d < 256 then some (.v4 a b c d)
      else none
    | some _ => none
    | none => none

/-! ## Record model (libdns records and njalla wire records) -/

/-- The dynamic ProviderData field of a libdns record (a Go interface
value): absent (nil), a map from string to string, or a value of any other
shape. -/
inductive ProvData where
  | absent
  | strMap (m : List (String × String))
  | other
deriving DecidableEq

/-- Service-binding parameters (libdns.SvcParams): a string-keyed map of
value lists, modelled as an association list. -/
def SvcParams := List (String × List String)
deriving DecidableEq

/-- Go map read with the zero-value default: the value at k, or the empty
string when k is not present. -/
def lookupStr (m : List (String × String)) (k : String) : String :=
  ((m.find? (fun p => p.1 == k)).map (fun p => p.2)).getD ""

/-- Lookup in an association list (Go map read returning presence). -/
def lookupA {α : Type} (m : List (String × α)) (k : String) : Option α :=
  (m.find? (fun p => p.1 == k)).map (fun p => p.2)

/-- Go map write m[k] = v: replaces the value at k, or adds the binding. -/
def insertA {α : Type} : List (String × α) → String → α → List (String × α)
  | [], k, v => [(k, v)]
  | (k2, v2) :: rest, k, v =>
    if k2 = k then (k, v) :: rest else (k2, v2) :: insertA rest k v

/-- Go delete(m, k): removes the binding at k. -/
def eraseA {α : Type} (m : List (String × α)) (k : String) :
    List (String × α) :=
  m.filter (fun p => !(p.1 == k))

/-- The libdns record kinds the provider handles: the concrete kinds of
the external record layer (Address, CNAME, TXT, MX, SRV, ServiceBinding,
the generic RR), plus a constructor for any other implementation of the
libdns.Record interface, which types.go rejects in its default branch.
TTL is in nanoseconds (time.Duration); the uint16 fields are Nat. -/
inductive LRecord where
  | address (name : String) (ttl : Int) (ip : IPAddr) (pd : ProvData)
  | cname (name : String) (ttl : Int) (target : String) (pd : ProvData)
  | txt (name : String) (ttl : Int) (text : String) (pd : ProvData)
  | mx (name : String) (ttl : Int) (preference : Nat) (target : String)
      (pd : ProvData)
  | srv (name : String) (ttl : Int) (priority weight port : Nat)
      (target : String) (pd : ProvData)
  | svcb (name : String) (ttl : Int) (priority : Nat) (target : String)
      (params : SvcParams) (pd : ProvData)
  | rr (name : String) (ttl : Int) (typ : String) (data : String)
  | unsupported (name : String) (ttl : Int) (typ : String) (data : String)
deriving DecidableEq

/-- Modelled from the spec: the Name field of record.RR() from the
external record layer. -/
def rrName : LRecord → String
  | .address n _ _ _ => n
  | .cname n _ _ _ => n
  | .txt n _ _ _ => n
  | .mx n _ _ _ _ => n
  | .srv n _ _ _ _ _ _ => n
  | .svcb n _ _ _ _ _ => n
  | .rr n _ _ _ => n
  | .unsupported n _ _ _ => n

/-- Modelled from the spec: the TTL field of record.RR(), in nanoseconds. -/
def rrTTL : LRecord → Int
  | .address _ t _ _ => t
  | .cname _ t _ _ => t
  | .txt _ t _ _ => t
  | .mx _ t _ _ _ => t
  | .srv _ t _ _ _ _ _ => t
  | .svcb _ t _ _ _ _ => t
  | .rr _ t _ _ => t
  | .unsupported _ t _ _ => t

/-- Modelled from the spec: the Type field of record.RR() from the
external record layer; an Address reports A or AAAA by address family, a
ServiceBinding reports HTTPS. -/
def rrType : LRecord → String
  | .address _ _ ip _ => if ip.isV4 then "A" else "AAAA"
  | .cname _ _ _ _ => "CNAME"
  | .txt _ _ _ _ => "TXT"
  | .mx _ _ _ _ _ => "MX"
  | .srv _ _ _ _ _ _ _ => "SRV"
  | .svcb _ _ _ _ _ _ => "HTTPS"
  | .rr _ _ t _ => t
  | .unsupported _ _ t _ => t

/-- The njallaRecord wire structure from types.go (typ stands for the Go
field Type). -/
structure NjallaRecord where
  id : String := ""
  domain : String := ""
  typ : String := ""
  name : String := ""
  content : String := ""
  ttl : Int := 0
  prio : Int := 0
  weight : Int := 0
  port : Int := 0
  target : String := ""
  value : String := ""
deriving DecidableEq

/-- Nanoseconds per second (time.Second). -/
def nsPerSec : Int := 1000000000

/-- Modelled from the spec: libdns.ParseSvcParams of the external record
layer, parsing space-separated key=value1,value2 pairs. -/
def parseSvcParams (s : String) : Option SvcParams :=
  if s = "" then some [] else
  ((splitOnSep ' ' s.data).filter (fun t => !t.isEmpty)).mapM fun t =>
    match splitOnSep '=' t with
    | [k] => some (⟨k⟩, ([] : List String))
    | [k, v] => some (⟨k⟩, (splitOnSep ',' v).map (⟨·⟩))
    | _ => none

/-- Modelled from the spec: SvcParams.String of the external record
layer, the inverse rendering of parseSvcParams. -/
def svcParamsString (ps : SvcParams) : String :=
  ⟨joinSep ' ' (ps.map fun kv => kv.1.data ++ '=' :: joinSep ',' (kv.2.map (fun v => v.data)))⟩

/-- njallaRecordToLibdns from types.go: decode a wire record into the
caller record shape.  The uint16 casts of the Go code become emod 65536. -/
def njallaRecordToLibdns (record : NjallaRecord) : Except String LRecord :=
  let recordTTL := record.ttl * nsPerSec
  let pd : ProvData := .strMap [("id", record.id)]
  let u16 : Int → Nat := fun n => (n.emod 65536).toNat
  if record.typ = "A" then
    match parseAddr record.content with
    | none => .error ("invalid A record IP address " ++ record.content)
    | some ip => .ok (.address record.name recordTTL ip pd)
  else if record.typ = "AAAA" then
    match parseAddr record.content with
    | none => .error ("invalid AAAA record IP address " ++ record.content)
    | some ip => .ok (.address record.name recordTTL ip pd)
  else if record.typ = "CNAME" then
    .ok (.cname record.name recordTTL record.content pd)
  else if record.typ = "TXT" then
    .ok (.txt record.name recordTTL record.content pd)
  else if record.typ = "MX" then
    .ok (.mx record.name recordTTL (u16 record.prio) record.content pd)
  else if record.typ = "SRV" then
    .ok (.srv record.name recordTTL (u16 record.prio) (u16 record.weight)
      (u16 record.port) record.content pd)
  else if record.typ = "HTTPS" then
    let params : SvcParams :=
      if record.value ≠ "" then
        match parseSvcParams record.value with
        | some p => p
        | none => [("_content", [record.value])]
      else []
    .ok (.svcb record.name recordTTL (u16 record.prio) record.target params pd)
  else if record.typ = "SVCB" then
    let params : SvcParams :=
      if record.content ≠ "" then
        match parseSvcParams record.content with
        | some p => p
        | none => [("_content", [record.content])]
      else []
    .ok (.svcb record.name recordTTL (u16 record.prio) record.target params pd)
  else .ok (.rr record.name recordTTL record.typ record.content)

/-- The id carried in a ProviderData value, when it is a string map. -/
def pdID : ProvData → String
  | .strMap m => lookupStr m "id"
  | _ => ""

/-- libdnsRecordToNjalla from types.go: encode a caller record for the
wire.  Duration.Seconds() followed by int() is integer division truncating
toward zero (Int.tdiv). -/
def libdnsRecordToNjalla (record : LRecord) (zone : String) :
    Except String NjallaRecord :=
  let base : NjallaRecord :=
    { domain := zone
      name := relativeName (rrName record) (zone ++ ".")
      ttl := (rrTTL record).tdiv nsPerSec }
  match record with
  | .address _ _ ip pd =>
    .ok { base with typ := rrType record, content := ipString ip, id := pdID pd }
  | .cname _ _ target pd =>
    .ok { base with typ := "CNAME", content := target, id := pdID pd }
  | .txt _ _ text pd =>
    .ok { base with typ := "TXT", content := text, id := pdID pd }
  | .mx _ _ preference target pd =>
    .ok { base with
            typ := "MX"
            content := target
            prio := (preference : Int)
            id := pdID pd }
  | .srv _ _ priority weight port target pd =>
    .ok { base with
            typ := "SRV"
            content := target
            prio := (priority : Int)
            weight := (weight : Int)
            port := (port : Int)
            id := pdID pd }
  | .svcb name _ priority target params pd =>
    let value :=
      if params.length > 0 then
        match lookupA params "_content" with
        | some content =>
          if content.length > 0 then content.headI else svcParamsString params
        | none => svcParamsString params
      else ""
    .ok { base with
            typ := "HTTPS"
            name := relativeName name (zone ++ ".")
            target := target
            prio := (priority : Int)
            value := value
            id := pdID pd }
  | .rr _ _ typ data =>
    .ok { base with typ := typ, content := data }
  | .unsupported _ _ _ _ => .error "unsupported record type"

/-! ## Reconciliation engine (provider.go)

The provider methods are embedded against a deterministic transport
oracle that answers each remote method, standing for the clientInterface;
every remote call the engine issues is recorded in a call trace.  Context
deadlines, the per-call timeouts, and the cancellation checks after each
remote call are real-time constructs outside the modelled claims: the
modelled runs are those in which the context is never cancelled.  Go map
iteration order is unspecified; maps are modelled as association lists in
first-insertion order, one fixed linearization of that nondeterminism. -/

/-- The ProviderData of a record, for kinds that have that field. -/
def recProviderData : LRecord → Option ProvData
  | .address _ _ _ pd => some pd
  | .cname _ _ _ pd => some pd
  | .txt _ _ _ pd => some pd
  | .mx _ _ _ _ pd => some pd
  | .srv _ _ _ _ _ _ pd => some pd
  | .svcb _ _ _ _ _ pd => some pd
  | .rr _ _ _ _ => none
  | .unsupported _ _ _ _ => none

/-- extractRecordID from provider.go.  The type switch handles Address,
CNAME, TXT, MX and SRV; a ServiceBinding matches no case and falls through
to the final return of the empty string, as do RR and any other record. -/
def extractRecordID : LRecord → String
  | .address _ _ _ pd => pdID pd
  | .cname _ _ _ pd => pdID pd
  | .txt _ _ _ pd => pdID pd
  | .mx _ _ _ _ pd => pdID pd
  | .srv _ _ _ _ _ _ pd => pdID pd
  | .svcb _ _ _ _ _ _ => ""
  | .rr _ _ _ _ => ""
  | .unsupported _ _ _ _ => ""

/-- isRecordID from provider.go: an id-like string is one that does not
contain the name-type separator bar. -/
def isRecordID (id : String) : Bool :=
  !(id.data.contains '|')

/-- The name-and-type reconciliation key built by SetRecords and
DeleteRecords: fmt.Sprintf of Name, a bar, and Type of record.RR(). -/
def recKey (record : LRecord) : String :=
  rrName record ++ "|" ++ rrType record

/-- add-record request built by the provider (addRecordRequest without
the never-populated Value field). -/
structure AddReq where
  domain : String
  typ : String
  name : String
  content : String
  ttl : Int
  prio : Int
  weight : Int
  port : Int
  target : String
deriving DecidableEq

/-- edit-record request built by the provider. -/
structure EditReq where
  id : String
  domain : String
  typ : String
  name : String
  content : String
  ttl : Int
  prio : Int
  weight : Int
  port : Int
  target : String
deriving DecidableEq

/-- remove-record request built by the provider. -/
structure RemoveReq where
  domain : String
  id : String
deriving DecidableEq

/-- The addRecordRequest the provider fills from an encoded record. -/
def mkAddReq (domain : String) (nr : NjallaRecord) : AddReq :=
  { domain := domain
    typ := nr.typ
    name := nr.name
    content := nr.content
    ttl := nr.ttl
    prio := nr.prio
    weight := nr.weight
    port := nr.port
    target := nr.target }

/-- The editRecordRequest the provider fills from an id and an encoded
record. -/
def mkEditReq (id domain : String) (nr : NjallaRecord) : EditReq :=
  { id := id
    domain := domain
    typ := nr.typ
    name := nr.name
    content := nr.content
    ttl := nr.ttl
    prio := nr.prio
    weight := nr.weight
    port := nr.port
    target := nr.target }

/-- One remote call issued by the engine, as recorded in the trace. -/
inductive CallTag where
  | listRecords (domain : String)
  | addRecord (req : AddReq)
  | editRecord (req : EditReq)
  | removeRecord (req : RemoveReq)
deriving DecidableEq

/-- The deterministic transport oracle standing for clientInterface: the
response each remote method returns, with unmarshalling of the reply into
its Go struct already folded in (an error is anything client.call would
return as non-nil). -/
structure Transport where
  listResp : Except String (List NjallaRecord)
  addResp : AddReq → Except String NjallaRecord
  editResp : EditReq → Except String NjallaRecord
  removeResp : RemoveReq → Except String Unit

/-- The errors the provider batch operations return, keeping the phase
structure of the fmt.Errorf wrappings in provider.go. -/
inductive OpErr where
  | convertRec (e : String)
  | convertResp (e : String)
  | remoteCall (method : String) (e : String)
  | missingID
deriving DecidableEq

/-- Result of a provider batch operation: the returned record slice (Go
nil becomes the empty list), the returned error, and the trace of remote
calls that were issued. -/
structure OpResult where
  recs : List LRecord
  err : Option OpErr
  calls : List CallTag
deriving DecidableEq

/-- The record-conversion loop of GetRecords: convert every listed wire
record, failing the whole list on the first record that fails to decode. -/
def convertList : List NjallaRecord → Except String (List LRecord)
  | [] => .ok []
  | nr :: rest =>
    match njallaRecordToLibdns nr with
    | .error e => .error e
    | .ok r =>
      match convertList rest with
      | .error e => .error e
      | .ok rs => .ok (r :: rs)

/-- GetRecords from provider.go: one list-records call scoped to the
trimmed zone, then decode every record; all-or-nothing. -/
def getRecords (tp : Transport) (zone : String) :
    Except OpErr (List LRecord) × List CallTag :=
  let z := strTrimSuffix zone "."
  match tp.listResp with
  | .error e => (.error (.remoteCall "list-records" e), [.listRecords z])
  | .ok nrs =>
    match convertList nrs with
    | .error e => (.error (.convertRec e), [.listRecords z])
    | .ok recs => (.ok recs, [.listRecords z])

/-- The per-record loop of AppendRecords: encode, add-record, decode the
response; first failure returns the accumulated records with the error. -/
def appendLoop (tp : Transport) (z : String) :
    List LRecord → List LRecord → List CallTag → OpResult
  | [], acc, calls => ⟨acc, none, calls⟩
  | record :: rest, acc, calls =>
    match libdnsRecordToNjalla record z with
    | .error e => ⟨acc, some (.convertRec e), calls⟩
    | .ok nr =>
      let req := mkAddReq z nr
      match tp.addResp req with
      | .error e =>
        ⟨acc, some (.remoteCall "add-record" e), calls ++ [.addRecord req]⟩
      | .ok resp =>
        match njallaRecordToLibdns resp with
        | .error e => ⟨acc, some (.convertResp e), calls ++ [.addRecord req]⟩
        | .ok created =>
          appendLoop tp z rest (acc ++ [created]) (calls ++ [.addRecord req])

/-- AppendRecords from provider.go. -/
def appendRecords (tp : Transport) (zone : String) (records : List LRecord) :
    OpResult :=
  appendLoop tp (strTrimSuffix zone ".") records [] []

/-- The id partition step of SetRecords: a record with an extractable id
is written into the recordsByKey map, the rest are kept in input order. -/
def partStep (acc : List (String × LRecord) × List LRecord) (r : LRecord) :
    List (String × LRecord) × List LRecord :=
  let id := extractRecordID r
  if id ≠ "" then (insertA acc.1 id r, acc.2) else (acc.1, acc.2 ++ [r])

/-- The recordsByKey map and recordsWithoutIDs slice SetRecords builds. -/
def partitionRecs (records : List LRecord) :
    List (String × LRecord) × List LRecord :=
  records.foldl partStep ([], [])

/-- The first SetRecords loop, over recordsByKey: encode (a failure
returns nil, dropping the accumulator), edit-record, decode. -/
def setLoop1 (tp : Transport) (z : String) :
    List (String × LRecord) → List LRecord → List CallTag → OpResult
  | [], acc, calls => ⟨acc, none, calls⟩
  | (id, record) :: rest, acc, calls =>
    match libdnsRecordToNjalla record z with
    | .error e => ⟨[], some (.convertRec e), calls⟩
    | .ok nr =>
      let req := mkEditReq id z nr
      match tp.editResp req with
      | .error e =>
        ⟨acc, some (.remoteCall "edit-record" e), calls ++ [.editRecord req]⟩
      | .ok resp =>
        match njallaRecordToLibdns resp with
        | .error e => ⟨acc, some (.convertResp e), calls ++ [.editRecord req]⟩
        | .ok updated =>
          setLoop1 tp z rest (acc ++ [updated]) (calls ++ [.editRecord req])

/-- The second SetRecords loop, over recordsWithoutIDs: probe the
existing-records map by reconciliation key, then update the match (or
fail on a match with no extractable id) or create a new record.  Encode
and missing-id failures return nil, dropping the accumulator. -/
def setLoop2 (tp : Transport) (z : String)
    (exByKey : List (String × LRecord)) :
    List LRecord → List LRecord → List CallTag → OpResult
  | [], acc, calls => ⟨acc, none, calls⟩
  | record :: rest, acc, calls =>
    match libdnsRecordToNjalla record z with
    | .error e => ⟨[], some (.convertRec e), calls⟩
    | .ok nr =>
      match lookupA exByKey (recKey record) with
      | some exRec =>
        let id := extractRecordID exRec
        if id = "" then ⟨[], some .missingID, calls⟩
        else
          let req := mkEditReq id z nr
          match tp.editResp req with
          | .error e =>
            ⟨acc, some (.remoteCall "edit-record" e), calls ++ [.editRecord req]⟩
          | .ok resp =>
            match njallaRecordToLibdns resp with
            | .error e =>
              ⟨acc, some (.convertResp e), calls ++ [.editRecord req]⟩
            | .ok updated =>
              setLoop2 tp z exByKey rest (acc ++ [updated])
                (calls ++ [.editRecord req])
      | none =>
        let req := mkAddReq z nr
        match tp.addResp req with
        | .error e =>
          ⟨acc, some (.remoteCall "add-record" e), calls ++ [.addRecord req]⟩
        | .ok resp =>
          match njallaRecordToLibdns resp with
          | .error e => ⟨acc, some (.convertResp e), calls ++ [.addRecord req]⟩
          | .ok created =>
            setLoop2 tp z exByKey rest (acc ++ [created])
              (calls ++ [.addRecord req])

/-- The existing-records map of SetRecords, keyed by reconciliation key. -/
def buildExisting (recs : List LRecord) : List (String × LRecord) :=
  recs.foldl (fun m rec => insertA m (recKey rec) rec) []

/-- The optional lookup step of SetRecords: skipped when every input
record carried an id, otherwise a GetRecords fetch. -/
def setFetch (tp : Transport) (z : String) (withoutIDs : List LRecord) :
    Except OpErr (List (String × LRecord)) × List CallTag :=
  if withoutIDs.isEmpty then (.ok [], [])
  else
    match getRecords tp z with
    | (.error e, cs) => (.error e, cs)
    | (.ok ex, cs) => (.ok (buildExisting ex), cs)

/-- SetRecords from provider.go. -/
def setRecords (tp : Transport) (zone : String) (records : List LRecord) :
    OpResult :=
  let z := strTrimSuffix zone "."
  let part := partitionRecs records
  match setFetch tp z part.2 with
  | (.error e, cs) => ⟨[], some e, cs⟩
  | (.ok exByKey, cs) =>
    let r1 := setLoop1 tp z part.1 [] cs
    match r1.err with
    | some _ => r1
    | none => setLoop2 tp z exByKey part.2 r1.recs r1.calls

/-- The recordMap partition step of DeleteRecords: records with an id are
keyed by it, the rest are keyed by reconciliation key, which is also kept
in the idsNeeded list. -/
def delPartStep (acc : List (String × LRecord) × List String) (r : LRecord) :
    List (String × LRecord) × List String :=
  let id := extractRecordID r
  if id ≠ "" then (insertA acc.1 id r, acc.2)
  else (insertA acc.1 (recKey r) r, acc.2 ++ [recKey r])

/-- The matching pass of DeleteRecords: every fetched record whose key is
wanted and that carries an extractable id moves the mapped desired record
from its key binding to an id binding. -/
def matchExisting (m : List (String × LRecord)) (ex : List LRecord) :
    List (String × LRecord) :=
  ex.foldl
    (fun m exRec =>
      let key := recKey exRec
      match lookupA m key with
      | some v =>
        let id := extractRecordID exRec
        if id ≠ "" then insertA (eraseA m key) id v else m
      | none => m)
    m

/-- The deletion loop of DeleteRecords: entries under a non-id key are
skipped; each id entry issues a remove-record call and on success adds the
original desired record to the returned set. -/
def delLoop (tp : Transport) (z : String) :
    List (String × LRecord) → List LRecord → List CallTag → OpResult
  | [], acc, calls => ⟨acc, none, calls⟩
  | (id, record) :: rest, acc, calls =>
    if isRecordID id then
      let req : RemoveReq := ⟨z, id⟩
      match tp.removeResp req with
      | .error e =>
        ⟨acc, some (.remoteCall "remove-record" e), calls ++ [.removeRecord req]⟩
      | .ok _ =>
        delLoop tp z rest (acc ++ [record]) (calls ++ [.removeRecord req])
    else delLoop tp z rest acc calls

/-- DeleteRecords from provider.go. -/
def deleteRecords (tp : Transport) (zone : String) (records : List LRecord) :
    OpResult :=
  let z := strTrimSuffix zone "."
  let part := records.foldl delPartStep ([], [])
  if part.2.isEmpty then delLoop tp z part.1 [] []
  else
    match getRecords tp z with
    | (.error e, cs) => ⟨[], some e, cs⟩
    | (.ok ex, cs) => delLoop tp z (matchExisting part.1 ex) [] cs

/-! ## Specification-side descriptions of the batch contracts

These definitions state the per-item outcome of each batch operation, so
that the partial-result contract can be phrased as: the returned slice is
the run of successful item outcomes before the first failing one. -/

/-- The outcome of processing one AppendRecords item in isolation. -/
def appendStep (tp : Transport) (z : String) (record : LRecord) :
    Except OpErr LRecord :=
  match libdnsRecordToNjalla record z with
  | .error e => .error (.convertRec e)
  | .ok nr =>
    match tp.addResp (mkAddReq z nr) with
    | .error e => .error (.remoteCall "add-record" e)
    | .ok resp =>
      match njallaRecordToLibdns resp with
      | .error e => .error (.convertResp e)
      | .ok created => .ok created

/-- The outcome of processing one recordsByKey item of SetRecords. -/
def setStep1 (tp : Transport) (z : String) (entry : String × LRecord) :
    Except OpErr LRecord :=
  match libdnsRecordToNjalla entry.2 z with
  | .error e => .error (.convertRec e)
  | .ok nr =>
    match tp.editResp (mkEditReq entry.1 z nr) with
    | .error e => .error (.remoteCall "edit-record" e)
    | .ok resp =>
      match njallaRecordToLibdns resp with
      | .error e => .error (.convertResp e)
      | .ok updated => .ok updated

/-- The outcome of processing one recordsWithoutIDs item of SetRecords. -/
def setStep2 (tp : Transport) (z : String)
    (exByKey : List (String × LRecord)) (record : LRecord) :
    Except OpErr LRecord :=
  match libdnsRecordToNjalla record z with
  | .error e => .error (.convertRec e)
  | .ok nr =>
    match lookupA exByKey (recKey record) with
    | some exRec =>
      let id := extractRecordID exRec
      if id = "" then .error .missingID
      else
        match tp.editResp (mkEditReq id z nr) with
        | .error e => .error (.remoteCall "edit-record" e)
        | .ok resp =>
          match njallaRecordToLibdns resp with
          | .error e => .error (.convertResp e)
          | .ok updated => .ok updated
    | none =>
      match tp.addResp (mkAddReq z nr) with
      | .error e => .error (.remoteCall "add-record" e)
      | .ok resp =>
        match njallaRecordToLibdns resp with
        | .error e => .error (.convertResp e)
        | .ok created => .ok created

/-- The outcome of processing one id entry of the DeleteRecords loop. -/
def delStep (tp : Transport) (z : String) (entry : String × LRecord) :
    Except OpErr LRecord :=
  match tp.removeResp ⟨z, entry.1⟩ with
  | .error e => .error (.remoteCall "remove-record" e)
  | .ok _ => .ok entry.2

/-- Collect the run of successes before the first failure: the prefix of
ok values, together with the first error when one occurs. -/
def collectOk : List (Except OpErr LRecord) → List LRecord × Option OpErr
  | [] => ([], none)
  | .ok r :: rest =>
    let pr := collectOk rest
    (r :: pr.1, pr.2)
  | .error e :: _ => ([], some e)

/-- Whether a SetRecords failure makes provider.go return nil instead of
the accumulated records: encode failures and the missing-id consistency
failure do, remote-call and response-decode failures do not. -/
def discardsAcc : OpErr → Bool
  | .convertRec _ => true
  | .missingID => true
  | _ => false

/-- Apply the SetRecords nil-return behavior to a collected prefix. -/
def applyDiscard (pr : List LRecord × Option OpErr) :
    List LRecord × Option OpErr :=
  match pr.2 with
  | some e => if discardsAcc e then ([], some e) else pr
  | none => pr

/-- Decidable equality for Except values, used to evaluate witnesses. -/
instance {ε α : Type} [DecidableEq ε] [DecidableEq α] :
    DecidableEq (Except ε α) := fun a b =>
  match a, b with
  | .ok x, .ok y =>
    if h : x = y then isTrue (by rw [h])
    else isFalse (by intro hc; cases hc; exact h rfl)
  | .error x, .error y =>
    if h : x = y then isTrue (by rw [h])
    else isFalse (by intro hc; cases hc; exact h rfl)
  | .ok _, .error _ => isFalse (by intro hc; cases hc)
  | .error _, .ok _ => isFalse (by intro hc; cases hc)

/-! ## Theorems

First the transport-level claims (backoff, retry classification, retry
loop), then the conversion layer, then the reconciliation engine. -/

/-- calculateBackoff computes the capped jittered exponential:
min of MaxDelay and BaseDelay times 2 to the attempt times (1 + draw
times RandomFactor). -/
theorem calculateBackoff_eq (cfg : RetryConfig) (n : Nat) (r : ℚ) :
    calculateBackoff cfg n r =
      min cfg.MaxDelay (cfg.BaseDelay * 2 ^ n * (1 + r * cfg.RandomFactor)) := by
  unfold calculateBackoff
  dsimp only
  have hx : cfg.BaseDelay * 2 ^ n + r * cfg.RandomFactor * (cfg.BaseDelay * 2 ^ n)
      = cfg.BaseDelay * 2 ^ n * (1 + r * cfg.RandomFactor) := by ring
  rw [min_def]
  split_ifs with h1 h2
  · rfl
  · exfalso; push_neg at h2; linarith
  · push_neg at h1; linarith
  · exact hx

/-- C2 counterexample: calculateBackoff is not monotone in the attempt
index for every RetryConfig and all jitter draws.  With RandomFactor 3, a
large draw at attempt 0 exceeds a zero draw at attempt 1; with a negative
BaseDelay the uncapped delay decreases with the attempt index. -/
theorem calculateBackoff_not_monotone :
    ¬ (∀ (cfg : RetryConfig) (m n : Nat) (rm rn : ℚ), m < n →
        0 ≤ rm → rm < 1 → 0 ≤ rn → rn < 1 →
        calculateBackoff cfg m rm ≤ calculateBackoff cfg n rn) := by
  intro h
  have h1 := h ⟨3, 1, 1000, 3⟩ 0 1 (9/10) 0 (by omega)
    (by norm_num) (by norm_num) (by norm_num) (by norm_num)
  rw [calculateBackoff_eq, calculateBackoff_eq] at h1
  simp only [min_def] at h1
  norm_num at h1

/-- C2 (amended): for a RetryConfig with nonnegative BaseDelay and a
RandomFactor between 0 and 1, calculateBackoff is monotone non-decreasing
in the attempt index for all jitter draws in [0,1); for every config and
attempt the returned delay is at most MaxDelay; and the delay equals
min(MaxDelay, BaseDelay * 2 ^ n * (1 + jitter)) where the jitter
r * RandomFactor lies in [0, RandomFactor]. -/
theorem calculateBackoff_spec (cfg : RetryConfig)
    (hB : 0 ≤ cfg.BaseDelay) (hRF0 : 0 ≤ cfg.RandomFactor)
    (hRF1 : cfg.RandomFactor ≤ 1) :
    (∀ (m n : Nat) (rm rn : ℚ), m < n → 0 ≤ rm → rm < 1 → 0 ≤ rn → rn < 1 →
        calculateBackoff cfg m rm ≤ calculateBackoff cfg n rn) ∧
    (∀ (a : Nat) (r : ℚ), calculateBackoff cfg a r ≤ cfg.MaxDelay) ∧
    (∀ (n : Nat) (r : ℚ), 0 ≤ r → r < 1 →
        ∃ j : ℚ, 0 ≤ j ∧ j ≤ cfg.RandomFactor ∧
          calculateBackoff cfg n r =
            min cfg.MaxDelay (cfg.BaseDelay * 2 ^ n * (1 + j))) := by
  refine ⟨?_, ?_, ?_⟩
  · intro m n rm rn hmn hrm0 hrm1 hrn0 hrn1
    rw [calculateBackoff_eq, calculateBackoff_eq]
    refine min_le_min le_rfl ?_
    have hp : (0:ℚ) ≤ 2 ^ m := by positivity
    have hq : (0:ℚ) ≤ 2 ^ n := by positivity
    have hbp : (0:ℚ) ≤ cfg.BaseDelay * 2 ^ m := mul_nonneg hB hp
    have hbq : (0:ℚ) ≤ cfg.BaseDelay * 2 ^ n := mul_nonneg hB hq
    have hrmRF : rm * cfg.RandomFactor ≤ 1 := by nlinarith
    have h1 : cfg.BaseDelay * 2 ^ m * (1 + rm * cfg.RandomFactor)
        ≤ cfg.BaseDelay * 2 ^ m * 2 :=
      mul_le_mul_of_nonneg_left (by linarith) hbp
    have h2 : (2:ℚ) ^ m * 2 ≤ 2 ^ n := by
      have hple : (2:ℚ) ^ (m + 1) ≤ 2 ^ n :=
        pow_le_pow_right₀ one_le_two (by omega)
      calc (2:ℚ) ^ m * 2 = 2 ^ (m + 1) := by ring
        _ ≤ 2 ^ n := hple
    have h3 : cfg.BaseDelay * 2 ^ m * 2 ≤ cfg.BaseDelay * 2 ^ n := by
      calc cfg.BaseDelay * 2 ^ m * 2 = cfg.BaseDelay * (2 ^ m * 2) := by ring
        _ ≤ cfg.BaseDelay * 2 ^ n := mul_le_mul_of_nonneg_left h2 hB
    have h4 : cfg.BaseDelay * 2 ^ n
        ≤ cfg.BaseDelay * 2 ^ n * (1 + rn * cfg.RandomFactor) := by
      have hj : (0:ℚ) ≤ rn * cfg.RandomFactor := mul_nonneg hrn0 hRF0
      nlinarith
    linarith
  · intro a r
    rw [calculateBackoff_eq]
    exact min_le_left _ _
  · intro n r hr0 hr1
    refine ⟨r * cfg.RandomFactor, mul_nonneg hr0 hRF0, ?_, calculateBackoff_eq cfg n r⟩
    calc r * cfg.RandomFactor ≤ 1 * cfg.RandomFactor := by nlinarith
      _ = cfg.RandomFactor := one_mul _

/-- Witness for calculateBackoff_spec at the default configuration. -/
theorem calculateBackoff_spec_witness :
    calculateBackoff DefaultRetryConfig 2 0 ≤ DefaultRetryConfig.MaxDelay :=
  (calculateBackoff_spec DefaultRetryConfig
    (by norm_num [DefaultRetryConfig])
    (by norm_num [DefaultRetryConfig])
    (by norm_num [DefaultRetryConfig])).2.1 2 0

/-- The retry loop never makes more attempts than it has iterations. -/
theorem callAux_attempts_le (o : Nat → AttemptOutcome) (w : Bool) :
    ∀ (rem attempt : Nat) (last : Option RetryErr),
      (callAux o w attempt rem last).attempts ≤ attempt + rem := by
  intro rem
  induction rem with
  | zero => intro attempt last; simp [callAux]
  | succ r ih =>
    intro attempt last
    rw [callAux]
    cases hs : callStep (o attempt) w with
    | done err => dsimp only; omega
    | retry e =>
      dsimp only
      calc (callAux o w (attempt + 1) r (some e)).attempts
          ≤ attempt + 1 + r := ih (attempt + 1) (some e)
        _ ≤ attempt + (r + 1) := by omega

/-- If the first j iterations starting at some attempt index all retry and
iteration j terminates, the loop returns its verdict after j+1 attempts. -/
theorem callAux_done_at (o : Nat → AttemptOutcome) (w : Bool)
    (err : Option CallError) :
    ∀ (j attempt rem : Nat) (last : Option RetryErr),
      (∀ i, i < j → ∃ e, callStep (o (attempt + i)) w = .retry e) →
      callStep (o (attempt + j)) w = .done err → j < rem →
      callAux o w attempt rem last = ⟨err, attempt + j + 1⟩ := by
  intro j
  induction j with
  | zero =>
    intro attempt rem last _ hdone hlt
    match rem, hlt with
    | r + 1, _ =>
      rw [callAux]
      simp only [Nat.add_zero] at hdone
      rw [hdone]
  | succ k ih =>
    intro attempt rem last hretry hdone hlt
    match rem, hlt with
    | r + 1, hlt =>
      obtain ⟨e, he⟩ := hretry 0 (by omega)
      rw [callAux]
      simp only [Nat.add_zero] at he
      rw [he]
      dsimp only
      have hstep : callStep (o (attempt + 1 + k)) w = .done err := by
        have hx : attempt + 1 + k = attempt + (k + 1) := by omega
        rw [hx]; exact hdone
      have hr : ∀ i, i < k → ∃ e2, callStep (o (attempt + 1 + i)) w = .retry e2 := by
        intro i hi
        have hx : attempt + 1 + i = attempt + (i + 1) := by omega
        rw [hx]; exact hretry (i + 1) (by omega)
      have heq := ih (attempt + 1) r (some e) hr hstep (by omega)
      rw [heq]
      congr 1
      omega

/-- If every iteration retries, the loop exhausts its budget and reports
the error of the last iteration as the last observed failure. -/
theorem callAux_all_retry (o : Nat → AttemptOutcome) (w : Bool) :
    ∀ (rem attempt : Nat) (last : Option RetryErr), 0 < rem →
      (∀ i, i < rem → ∃ e, callStep (o (attempt + i)) w = .retry e) →
      ∃ e, callStep (o (attempt + rem - 1)) w = .retry e ∧
        callAux o w attempt rem last =
          ⟨some (.retriesExhausted (some e)), attempt + rem⟩ := by
  intro rem
  induction rem with
  | zero => intro attempt last h; omega
  | succ r ih =>
    intro attempt last _ hall
    obtain ⟨e, he⟩ := hall 0 (by omega)
    simp only [Nat.add_zero] at he
    cases Nat.eq_zero_or_pos r with
    | inl hr0 =>
      subst hr0
      refine ⟨e, by simpa using he, ?_⟩
      rw [callAux, he]
      dsimp only
      rw [callAux]
    | inr hrpos =>
      have hall2 : ∀ i, i < r → ∃ e2, callStep (o (attempt + 1 + i)) w = .retry e2 := by
        intro i hi
        have : attempt + 1 + i = attempt + (i + 1) := by omega
        rw [this]; exact hall (i + 1) (by omega)
      obtain ⟨e2, he2, heq⟩ := ih (attempt + 1) (some e) hrpos hall2
      refine ⟨e2, ?_, ?_⟩
      · have hx : attempt + 1 + r - 1 = attempt + (r + 1) - 1 := by omega
        rw [← hx]; exact he2
      · rw [callAux, he]
        dsimp only
        rw [heq]
        congr 1
        omega

/-- C3: isRetryable holds exactly for a non-nil error, a server-error
status (at least 500), or status 429; and when an attempt observes any
other error status (the remaining 4xx codes), client.call returns the
HTTP error immediately after exactly one attempt. -/
theorem isRetryable_spec :
    (∀ (e : Option String) (s : Nat),
        isRetryable e s = true ↔ (e ≠ none ∨ 500 ≤ s ∨ s = 429)) ∧
    (∀ (maxRetries : Int) (o : Nat → AttemptOutcome) (w : Bool)
        (s : Nat) (body : RespBody),
        400 ≤ s → s < 500 → s ≠ 429 → 0 < (maxRetries + 1).toNat →
        o 0 = .resp s body →
        clientCall maxRetries o w = ⟨some (.fail (.httpErr s)), 1⟩) := by
  constructor
  · intro e s
    cases e with
    | none =>
      simp only [isRetryable]
      constructor
      · intro h
        rcases Bool.or_eq_true_iff.mp h with h1 | h1
        · exact Or.inr (Or.inl (by simpa using h1))
        · exact Or.inr (Or.inr (by simpa using h1))
      · rintro (h | h | h)
        · exact absurd rfl h
        · exact Bool.or_eq_true_iff.mpr (Or.inl (by simpa using h))
        · exact Bool.or_eq_true_iff.mpr (Or.inr (by simpa using h))
    | some m => simp [isRetryable]
  · intro maxRetries o w s body h400 h500 h429 hpos h0
    have hstep : callStep (o 0) w = .done (some (.fail (.httpErr s))) := by
      rw [h0]
      simp only [callStep, isRetryable]
      rw [if_pos (by omega)]
      rw [if_neg]
      simp only [Bool.or_eq_true_iff, not_or]
      constructor
      · simpa using by omega
      · simpa using h429
    have := callAux_done_at o w (some (.fail (.httpErr s))) 0 0
      (maxRetries + 1).toNat none (by omega) (by simpa using hstep) hpos
    simpa [clientCall] using this

/-- Witness for isRetryable_spec: status 503 is retryable, and a first
attempt observing status 404 terminates the call after one attempt. -/
theorem isRetryable_spec_witness :
    isRetryable none 503 = true ∧
      clientCall 3 (fun _ => .resp 404 .malformed) true =
        ⟨some (.fail (.httpErr 404)), 1⟩ :=
  ⟨(isRetryable_spec.1 none 503).mpr (Or.inr (Or.inl (by omega))),
    isRetryable_spec.2 3 (fun _ => .resp 404 .malformed) true 404 .malformed
      (by omega) (by omega) (by omega) (by decide) rfl⟩

/-- C4: when the attempt at index k receives a parsed envelope carrying a
structured application error (every earlier attempt having retried),
client.call returns that error with its remote code and message
immediately: exactly k+1 attempts are made no matter how many retry
attempts remain. -/
theorem clientCall_api_error_terminal (maxRetries : Int)
    (o : Nat → AttemptOutcome) (w : Bool) (k : Nat) (s : Nat)
    (c : Int) (m : String)
    (hk : k < (maxRetries + 1).toNat)
    (hretry : ∀ i, i < k → ∃ e, callStep (o i) w = .retry e)
    (hs : s < 400) (hok : o k = .resp s (.withErr c m)) :
    clientCall maxRetries o w = ⟨some (.apiErr c m), k + 1⟩ := by
  have hstep : callStep (o k) w = .done (some (.apiErr c m)) := by
    rw [hok]
    simp only [callStep]
    rw [if_neg (by omega)]
  have := callAux_done_at o w (some (.apiErr c m)) k 0
    (maxRetries + 1).toNat none (by simpa using hretry)
    (by simpa using hstep) hk
  simpa [clientCall] using this

/-- Witness for clientCall_api_error_terminal: two retryable 500s then an
application error on the third attempt ends the call at three attempts,
with one retry attempt still unused. -/
theorem clientCall_api_error_terminal_witness :
    clientCall 3 (fun i => if i < 2 then .resp 500 .malformed
      else .resp 200 (.withErr 403 "denied")) true =
      ⟨some (.apiErr 403 "denied"), 3⟩ :=
  clientCall_api_error_terminal 3
    (fun i => if i < 2 then .resp 500 .malformed
      else .resp 200 (.withErr 403 "denied")) true 2 200 403 "denied"
    (by decide)
    (by intro i hi
        interval_cases i
        · exact ⟨.httpErr 500, rfl⟩
        · exact ⟨.httpErr 500, rfl⟩)
    (by omega) rfl

/-- C5: client.call makes at most MaxRetries + 1 delivery attempts, and
when every allowed attempt fails with a retryable failure it returns the
retries-exhausted error wrapping the failure observed on the last
attempt. -/
theorem clientCall_attempt_budget (maxRetries : Int) (hmr : 0 ≤ maxRetries) :
    (∀ (o : Nat → AttemptOutcome) (w : Bool),
        (clientCall maxRetries o w).attempts ≤ maxRetries.toNat + 1) ∧
    (∀ (o : Nat → AttemptOutcome) (w : Bool),
        (∀ i, i ≤ maxRetries.toNat → ∃ e, callStep (o i) w = .retry e) →
        ∃ e, callStep (o maxRetries.toNat) w = .retry e ∧
          clientCall maxRetries o w =
            ⟨some (.retriesExhausted (some e)), maxRetries.toNat + 1⟩) := by
  have htn : (maxRetries + 1).toNat = maxRetries.toNat + 1 := by omega
  constructor
  · intro o w
    have := callAux_attempts_le o w (maxRetries + 1).toNat 0 none
    simpa [clientCall, htn] using this
  · intro o w hall
    have := callAux_all_retry o w (maxRetries + 1).toNat 0 none (by omega)
      (by intro i hi
          simpa using hall i (by omega))
    obtain ⟨e, he, heq⟩ := this
    refine ⟨e, ?_, ?_⟩
    · have hx : 0 + (maxRetries + 1).toNat - 1 = maxRetries.toNat := by omega
      rwa [hx] at he
    · rw [clientCall, heq]
      congr 1
      omega

/-- Witness for clientCall_attempt_budget: persistent network failure
with MaxRetries 1 makes two attempts and reports exhaustion wrapping the
network error. -/
theorem clientCall_attempt_budget_witness :
    (clientCall 1 (fun _ => .netErr "refused") true).attempts ≤ 2 ∧
      clientCall 1 (fun _ => .netErr "refused") true =
        ⟨some (.retriesExhausted (some (.netErr "refused"))), 2⟩ := by
  have h1 := (clientCall_attempt_budget 1 (by omega)).1
    (fun _ => .netErr "refused") true
  have h2 := (clientCall_attempt_budget 1 (by omega)).2
    (fun _ => .netErr "refused") true
    (by intro i _; exact ⟨.netErr "refused", rfl⟩)
  obtain ⟨e, he, heq⟩ := h2
  have hee : e = .netErr "refused" := by
    have : StepRes.retry e = StepRes.retry (.netErr "refused") := by
      rw [← he]; rfl
    cases this; rfl
  constructor
  · simpa using h1
  · rw [heq, hee]
    rfl

/-! ### The textual IP layer round-trips -/

/-- With enough fuel, digitsFuel computes Nat.digits. -/
theorem digitsFuel_eq_digits (b : Nat) (hb : 2 ≤ b) :
    ∀ fuel n, n ≤ fuel → digitsFuel b fuel n = Nat.digits b n := by
  intro fuel
  induction fuel with
  | zero =>
    intro n hn
    have hn0 : n = 0 := by omega
    subst hn0
    simp [digitsFuel]
  | succ f ih =>
    intro n hn
    match n with
    | 0 => simp [digitsFuel]
    | m + 1 =>
      rw [digitsFuel]
      have hdiv : (m + 1) / b ≤ f := by
        have hlt : (m + 1) / b < m + 1 :=
          Nat.div_lt_self (by omega) (by omega : 1 < b)
        omega
      rw [ih ((m + 1) / b) hdiv,
        Nat.digits_def' (by omega : 1 < b) (Nat.succ_pos m)]

/-- natDigits agrees with Nat.digits. -/
theorem natDigits_eq (b n : Nat) (hb : 2 ≤ b) :
    natDigits b n = Nat.digits b n :=
  digitsFuel_eq_digits b hb n n le_rfl

/-- Parsing the character of a digit below 16 recovers the digit. -/
theorem digitVal_digitChar : ∀ d, d < 16 → digitVal (digitChar d) = some d := by
  decide

/-- Digit characters are not the separators used in addresses. -/
theorem digitChar_ne_sep : ∀ d, d < 16 → digitChar d ≠ '.' ∧ digitChar d ≠ ':' := by
  decide

/-- parseDigitsAux distributes over list append through Option.bind. -/
theorem parseDigitsAux_append (b : Nat) :
    ∀ (l1 l2 : List Char) (acc : Nat),
      parseDigitsAux b acc (l1 ++ l2) =
        (parseDigitsAux b acc l1).bind (fun a => parseDigitsAux b a l2) := by
  intro l1
  induction l1 with
  | nil => intro l2 acc; simp [parseDigitsAux]
  | cons c cs ih =>
    intro l2 acc
    rw [List.cons_append, parseDigitsAux, parseDigitsAux]
    cases digitVal c with
    | none => simp
    | some d =>
      dsimp only
      by_cases hd : d < b
      · rw [if_pos hd, if_pos hd, ih]
      · rw [if_neg hd, if_neg hd]; simp

/-- Evaluating a printed digit list: parseDigitsAux applied to the
big-endian characters of a digit list yields the accumulated value. -/
theorem parseDigitsAux_run (b : Nat) (hb16 : b ≤ 16) :
    ∀ (ds : List Nat) (acc : Nat), (∀ d ∈ ds, d < b) →
      parseDigitsAux b acc ((ds.map digitChar).reverse) =
        some (acc * b ^ ds.length + Nat.ofDigits b ds) := by
  intro ds
  induction ds with
  | nil => intro acc _; simp [parseDigitsAux, Nat.ofDigits_nil]
  | cons d ds ih =>
    intro acc hall
    have hd : d < b := hall d (List.mem_cons_self _ _)
    rw [List.map_cons, List.reverse_cons, parseDigitsAux_append,
      ih acc (fun x hx => hall x (List.mem_cons_of_mem _ hx))]
    rw [Option.some_bind]
    rw [parseDigitsAux]
    rw [digitVal_digitChar d (by omega)]
    dsimp only
    rw [if_pos hd, parseDigitsAux]
    rw [Nat.ofDigits_cons, List.length_cons, pow_succ]
    congr 1
    ring

/-- Round trip for printed numbers: parseDigits inverts natChars. -/
theorem parseDigits_natChars (b n : Nat) (hb : 2 ≤ b) (hb16 : b ≤ 16) :
    parseDigits b (natChars b n) = some n := by
  by_cases h0 : n = 0
  · subst h0
    rw [natChars, if_pos rfl, parseDigits]
    rw [if_neg (by simp)]
    rw [parseDigitsAux, digitVal_digitChar 0 (by omega)]
    dsimp only
    rw [if_pos (by omega), parseDigitsAux]
    norm_num
  · rw [natChars, if_neg h0, natDigits_eq b n hb, parseDigits]
    have hne : Nat.digits b n ≠ [] := Nat.digits_ne_nil_iff_ne_zero.mpr h0
    rw [if_neg (by simpa using hne)]
    rw [parseDigitsAux_run b hb16 (Nat.digits b n) 0
      (fun d hd => Nat.digits_lt_base (by omega) hd)]
    simp [Nat.ofDigits_digits]

/-- Every character printed for a number is a digit character below b. -/
theorem mem_natChars (b n : Nat) (hb : 2 ≤ b) :
    ∀ c ∈ natChars b n, ∃ d, d < b ∧ c = digitChar d := by
  intro c hc
  rw [natChars] at hc
  by_cases h0 : n = 0
  · rw [if_pos h0] at hc
    simp only [List.mem_singleton] at hc
    exact ⟨0, by omega, hc⟩
  · rw [if_neg h0, natDigits_eq b n hb] at hc
    rw [List.mem_reverse] at hc
    obtain ⟨d, hd, hdc⟩ := List.mem_map.mp hc
    exact ⟨d, Nat.digits_lt_base (by omega) hd, hdc.symm⟩

/-- Splitting a separator-free list yields the singleton of that list. -/
theorem splitOnSep_no_sep (sep : Char) :
    ∀ xs : List Char, sep ∉ xs → splitOnSep sep xs = [xs] := by
  intro xs
  induction xs with
  | nil => intro _; rfl
  | cons c cs ih =>
    intro h
    rw [splitOnSep]
    rw [ih (fun hm => h (List.mem_cons_of_mem _ hm))]
    rw [if_neg (fun hc : c = sep => h (List.mem_cons.mpr (Or.inl hc.symm)))]

/-- Splitting at a separator after a separator-free front peels it off. -/
theorem splitOnSep_append (sep : Char) :
    ∀ (xs ys : List Char), sep ∉ xs →
      splitOnSep sep (xs ++ sep :: ys) = xs :: splitOnSep sep ys := by
  intro xs
  induction xs with
  | nil =>
    intro ys _
    rw [List.nil_append, splitOnSep, if_pos rfl]
  | cons c cs ih =>
    intro ys h
    rw [List.cons_append, splitOnSep]
    rw [ih ys (fun hm => h (List.mem_cons_of_mem _ hm))]
    rw [if_neg (fun hc : c = sep => h (List.mem_cons.mpr (Or.inl hc.symm)))]

/-- The joinSep equation on a list of at least two groups. -/
theorem joinSep_cons2 (sep : Char) (g g2 : List Char)
    (rest : List (List Char)) :
    joinSep sep (g :: g2 :: rest) = g ++ sep :: joinSep sep (g2 :: rest) :=
  rfl

/-- splitOnSep inverts joinSep on nonempty groups free of the separator. -/
theorem splitOnSep_joinSep (sep : Char) :
    ∀ gs : List (List Char), gs ≠ [] → (∀ g ∈ gs, sep ∉ g) →
      splitOnSep sep (joinSep sep gs) = gs := by
  intro gs
  induction gs with
  | nil => intro h; exact absurd rfl h
  | cons g rest ih =>
    intro _ hall
    cases rest with
    | nil =>
      exact splitOnSep_no_sep sep g (hall g (List.mem_cons_self _ _))
    | cons g2 rest2 =>
      rw [joinSep_cons2,
        splitOnSep_append sep g _ (hall g (List.mem_cons_self _ _))]
      rw [ih (by simp) (fun x hx => hall x (List.mem_cons_of_mem _ hx))]

/-- Membership in a joined list comes from the separator or a group. -/
theorem mem_joinSep (sep : Char) :
    ∀ (gs : List (List Char)) (c : Char), c ∈ joinSep sep gs →
      c = sep ∨ ∃ g ∈ gs, c ∈ g := by
  intro gs
  induction gs with
  | nil => intro c hc; simp [joinSep] at hc
  | cons g rest ih =>
    intro c hc
    cases rest with
    | nil =>
      exact Or.inr ⟨g, (List.mem_cons_self _ _), hc⟩
    | cons g2 rest2 =>
      rw [joinSep_cons2] at hc
      rcases List.mem_append.mp hc with h | h
      · exact Or.inr ⟨g, (List.mem_cons_self _ _), h⟩
      · rcases List.mem_cons.mp h with h | h
        · exact Or.inl h
        · rcases ih c h with h2 | ⟨g3, hg3, hcg3⟩
          · exact Or.inl h2
          · exact Or.inr ⟨g3, List.mem_cons_of_mem _ hg3, hcg3⟩

/-- The separator occurs in a join of at least two groups. -/
theorem sep_mem_joinSep (sep : Char) :
    ∀ gs : List (List Char), 2 ≤ gs.length → sep ∈ joinSep sep gs := by
  intro gs hlen
  match gs, hlen with
  | g1 :: g2 :: rest, _ =>
    rw [joinSep_cons2]
    exact List.mem_append.mpr (Or.inr (List.mem_cons_self _ _))

/-- mapM recovers a list whose elements each round-trip through print
followed by parse. -/
theorem mapM_map_inverse {α β : Type} (f : β → Option α) (g : α → β) :
    ∀ l : List α, (∀ x ∈ l, f (g x) = some x) → (l.map g).mapM f = some l := by
  intro l
  induction l with
  | nil => intro _; rfl
  | cons x xs ih =>
    intro hall
    rw [List.map_cons, List.mapM_cons, hall x (List.mem_cons_self _ _),
      ih (fun y hy => hall y (List.mem_cons_of_mem _ hy))]
    rfl

/-- The textual layer round-trips: parsing the printed form of a valid
address recovers the address (netip contract assumed by the spec). -/
theorem parseAddr_ipString (ip : IPAddr) (h : validIP ip = true) :
    parseAddr (ipString ip) = some ip := by
  cases ip with
  | v4 a b c d =>
    simp only [validIP, Bool.and_eq_true, decide_eq_true_eq] at h
    obtain ⟨⟨⟨ha, hb⟩, hc⟩, hd⟩ := h
    have hdata : (ipString (.v4 a b c d)).data =
        joinSep '.' [natChars 10 a, natChars 10 b, natChars 10 c,
          natChars 10 d] := rfl
    have hgroups : ∀ g ∈ [natChars 10 a, natChars 10 b, natChars 10 c,
        natChars 10 d], ∀ ch ∈ g, ch ≠ '.' ∧ ch ≠ ':' := by
      intro g hg ch hch
      have hx : ∃ x, g = natChars 10 x := by
        simp only [List.mem_cons, List.not_mem_nil, or_false] at hg
        rcases hg with rfl | rfl | rfl | rfl
        · exact ⟨a, rfl⟩
        · exact ⟨b, rfl⟩
        · exact ⟨c, rfl⟩
        · exact ⟨d, rfl⟩
      obtain ⟨x, rfl⟩ := hx
      obtain ⟨dg, hdg, rfl⟩ := mem_natChars 10 x (by omega) ch hch
      exact digitChar_ne_sep dg (by omega)
    have hnocolon : ':' ∉ (ipString (.v4 a b c d)).data := by
      rw [hdata]
      intro hmem
      rcases mem_joinSep '.' _ ':' hmem with h1 | ⟨g, hg, hcg⟩
      · exact absurd h1 (by decide)
      · exact absurd rfl (hgroups g hg ':' hcg).2
    have hcontains : ((ipString (.v4 a b c d)).data.contains ':') = false := by
      simpa using hnocolon
    have hmapm : List.mapM (parseDigits 10)
        [natChars 10 a, natChars 10 b, natChars 10 c, natChars 10 d] =
          some [a, b, c, d] := by
      have hmap : [natChars 10 a, natChars 10 b, natChars 10 c,
          natChars 10 d] = [a, b, c, d].map (natChars 10) := rfl
      rw [hmap]
      exact mapM_map_inverse (parseDigits 10) (natChars 10) [a, b, c, d]
        (fun x _ => parseDigits_natChars 10 x (by omega) (by omega))
    rw [parseAddr]
    simp only [hcontains, Bool.false_eq_true, if_false]
    rw [hdata, splitOnSep_joinSep '.' _ (by simp)
      (fun g hg hsep => (hgroups g hg '.' hsep).1 rfl), hmapm]
    dsimp only
    rw [if_pos]
    simp only [Bool.and_eq_true, decide_eq_true_eq]
    exact ⟨⟨⟨ha, hb⟩, hc⟩, hd⟩
  | v6 gs =>
    simp only [validIP, Bool.and_eq_true, beq_iff_eq, List.all_eq_true,
      decide_eq_true_eq] at h
    obtain ⟨hlen, hall⟩ := h
    have hne : gs ≠ [] := by
      intro hgs; rw [hgs] at hlen; simp at hlen
    have hdata : (ipString (.v6 gs)).data =
        joinSep ':' (gs.map (natChars 16)) := rfl
    have hgroups : ∀ g ∈ gs.map (natChars 16), ∀ ch ∈ g,
        ch ≠ '.' ∧ ch ≠ ':' := by
      intro g hg ch hch
      obtain ⟨x, _, rfl⟩ := List.mem_map.mp hg
      obtain ⟨dg, hdg, rfl⟩ := mem_natChars 16 x (by omega) ch hch
      exact digitChar_ne_sep dg (by omega)
    have hcolon : ':' ∈ (ipString (.v6 gs)).data := by
      rw [hdata]
      exact sep_mem_joinSep ':' _ (by simp [hlen])
    have hcontains : ((ipString (.v6 gs)).data.contains ':') = true := by
      simpa using hcolon
    have hmapm : List.mapM (parseDigits 16) (gs.map (natChars 16)) =
        some gs :=
      mapM_map_inverse (parseDigits 16) (natChars 16) gs
        (fun x _ => parseDigits_natChars 16 x (by omega) (by omega))
    rw [parseAddr]
    simp only [hcontains, if_true]
    rw [hdata, splitOnSep_joinSep ':' _ (by simp [hne])
      (fun g hg hsep => (hgroups g hg ':' hsep).2 rfl), hmapm]
    dsimp only
    rw [if_pos]
    simp only [Bool.and_eq_true, beq_iff_eq, List.all_eq_true,
      decide_eq_true_eq]
    exact ⟨hlen, hall⟩

/-- C8 counterexample: the round trip is not the identity modulo only TTL
and name.  An Address record with nil ProviderData (here already
zone-relative, with whole-second TTL) decodes back with a synthesized
id map, so the decoded record differs from the original even though name,
TTL and address family agree exactly. -/
theorem address_round_trip_pd_counterexample :
    libdnsRecordToNjalla
        (.address "test" 3600000000000 (.v4 192 0 2 1) .absent)
        "example.com" =
      .ok ⟨"", "example.com", "A", "test", "192.0.2.1", 3600, 0, 0, 0, "", ""⟩ ∧
    njallaRecordToLibdns
        ⟨"", "example.com", "A", "test", "192.0.2.1", 3600, 0, 0, 0, "", ""⟩ =
      .ok (.address "test" 3600000000000 (.v4 192 0 2 1)
        (.strMap [("id", "")])) ∧
    LRecord.address "test" 3600000000000 (.v4 192 0 2 1)
        (.strMap [("id", "")]) ≠
      LRecord.address "test" 3600000000000 (.v4 192 0 2 1) .absent := by
  refine ⟨?_, ?_, by decide⟩
  · rfl
  · rfl

/-- C8 (amended): encode then decode is the identity on Address records
with a valid address value, modulo the TTL being truncated to whole
seconds, the name being relativized to the zone, and the ProviderData
being normalized to the single-entry id map (exact when it already has
that shape, for any id value including the empty one). -/
theorem address_round_trip (nm : String) (ttl : Int) (ip : IPAddr)
    (x zone : String) (h : validIP ip = true) :
    ∃ nr, libdnsRecordToNjalla (.address nm ttl ip (.strMap [("id", x)]))
        zone = .ok nr ∧
      njallaRecordToLibdns nr =
        .ok (.address (relativeName nm (zone ++ "."))
          (ttl.tdiv nsPerSec * nsPerSec) ip (.strMap [("id", x)])) := by
  cases ip with
  | v4 a b c d =>
    refine ⟨{ id := x, domain := zone, typ := "A",
              name := relativeName nm (zone ++ "."),
              content := ipString (.v4 a b c d),
              ttl := ttl.tdiv nsPerSec }, rfl, ?_⟩
    rw [njallaRecordToLibdns]
    dsimp only
    rw [if_pos rfl, parseAddr_ipString _ h]
  | v6 gs =>
    refine ⟨{ id := x, domain := zone, typ := "AAAA",
              name := relativeName nm (zone ++ "."),
              content := ipString (.v6 gs),
              ttl := ttl.tdiv nsPerSec }, rfl, ?_⟩
    rw [njallaRecordToLibdns]
    dsimp only
    rw [if_neg (by decide), if_pos rfl, parseAddr_ipString _ h]

/-- Witness for address_round_trip at a concrete IPv4 record. -/
theorem address_round_trip_witness :
    ∃ nr, libdnsRecordToNjalla
        (.address "test" 3600000000000 (.v4 192 0 2 1)
          (.strMap [("id", "rid7")])) "example.com" = .ok nr ∧
      njallaRecordToLibdns nr =
        .ok (.address (relativeName "test" ("example.com" ++ "."))
          (Int.tdiv 3600000000000 nsPerSec * nsPerSec) (.v4 192 0 2 1)
          (.strMap [("id", "rid7")])) :=
  address_round_trip "test" 3600000000000 (.v4 192 0 2 1) "rid7"
    "example.com" (by decide)

/-- C9 counterexample: a ServiceBinding record carries the provider-data
side-channel, yet extractRecordID ignores it and yields the empty string
rather than the id stored in the map. -/
theorem extractRecordID_svcb_counterexample :
    recProviderData (.svcb "x" 0 0 "t" [] (.strMap [("id", "abc")])) =
        some (.strMap [("id", "abc")]) ∧
    extractRecordID (.svcb "x" 0 0 "t" [] (.strMap [("id", "abc")])) = "" ∧
    ("" : String) ≠ "abc" := by
  refine ⟨rfl, rfl, by decide⟩

/-- C9 (amended): extractRecordID returns the id entry of the string-map
provider data for the Address, CNAME, TXT, MX and SRV kinds, and the
empty string when the provider data is absent or not a string map; a
generic RR always yields the empty string, and so does a ServiceBinding
even though it carries the side-channel. -/
theorem extractRecordID_spec :
    (∀ nm ttl ip m, extractRecordID (.address nm ttl ip (.strMap m)) =
        lookupStr m "id") ∧
    (∀ nm ttl tg m, extractRecordID (.cname nm ttl tg (.strMap m)) =
        lookupStr m "id") ∧
    (∀ nm ttl tx m, extractRecordID (.txt nm ttl tx (.strMap m)) =
        lookupStr m "id") ∧
    (∀ nm ttl p tg m, extractRecordID (.mx nm ttl p tg (.strMap m)) =
        lookupStr m "id") ∧
    (∀ nm ttl p w po tg m,
        extractRecordID (.srv nm ttl p w po tg (.strMap m)) =
          lookupStr m "id") ∧
    (∀ r : LRecord,
        (recProviderData r = some .absent ∨ recProviderData r = some .other) →
        extractRecordID r = "") ∧
    (∀ nm ttl ty da, extractRecordID (.rr nm ttl ty da) = "") ∧
    (∀ nm ttl p tg ps pd, extractRecordID (.svcb nm ttl p tg ps pd) = "") := by
  refine ⟨fun _ _ _ _ => rfl, fun _ _ _ _ => rfl, fun _ _ _ _ => rfl,
    fun _ _ _ _ _ => rfl, fun _ _ _ _ _ _ _ => rfl, ?_,
    fun _ _ _ _ => rfl, fun _ _ _ _ _ _ => rfl⟩
  intro r hr
  cases r <;> rcases hr with hr | hr <;>
    first
      | rfl
      | (simp only [recProviderData, Option.some.injEq] at hr
         subst hr
         rfl)

/-- Witness for extractRecordID_spec: absent provider data yields the
empty identity. -/
theorem extractRecordID_spec_witness :
    extractRecordID (.address "a" 0 (.v4 1 2 3 4) .absent) = "" :=
  extractRecordID_spec.2.2.2.2.2.1 (.address "a" 0 (.v4 1 2 3 4) .absent)
    (Or.inl rfl)

/-! ### Loop characterizations for the batch operations -/

/-- The AppendRecords loop returns the accumulator extended by the run of
successful per-item outcomes, with the first per-item failure as error. -/
theorem appendLoop_spec (tp : Transport) (z : String) :
    ∀ (rs : List LRecord) (acc : List LRecord) (calls : List CallTag),
      (appendLoop tp z rs acc calls).recs =
          acc ++ (collectOk (rs.map (appendStep tp z))).1 ∧
      (appendLoop tp z rs acc calls).err =
          (collectOk (rs.map (appendStep tp z))).2 := by
  intro rs
  induction rs with
  | nil => intro acc calls; simp [appendLoop, collectOk]
  | cons r rest ih =>
    intro acc calls
    rw [appendLoop, List.map_cons, appendStep]
    cases hconv : libdnsRecordToNjalla r z with
    | error e => simp [collectOk]
    | ok nr =>
      dsimp only
      cases hadd : tp.addResp (mkAddReq z nr) with
      | error e => simp [collectOk]
      | ok resp =>
        dsimp only
        cases hdec : njallaRecordToLibdns resp with
        | error e => simp [collectOk]
        | ok created =>
          dsimp only
          rw [collectOk]
          have h := ih (acc ++ [created])
            (calls ++ [CallTag.addRecord (mkAddReq z nr)])
          refine ⟨?_, h.2⟩
          rw [h.1]
          simp

/-- The first SetRecords loop: the error is the first per-item failure;
the records are the accumulator plus the successful run, except that an
encode failure drops everything. -/
theorem setLoop1_spec (tp : Transport) (z : String) :
    ∀ (entries : List (String × LRecord)) (acc : List LRecord)
      (calls : List CallTag),
      (setLoop1 tp z entries acc calls).err =
          (collectOk (entries.map (setStep1 tp z))).2 ∧
      (setLoop1 tp z entries acc calls).recs =
          (match (collectOk (entries.map (setStep1 tp z))).2 with
            | some e => if discardsAcc e then [] else
                acc ++ (collectOk (entries.map (setStep1 tp z))).1
            | none => acc ++ (collectOk (entries.map (setStep1 tp z))).1) := by
  intro entries
  induction entries with
  | nil => intro acc calls; simp [setLoop1, collectOk]
  | cons e rest ih =>
    intro acc calls
    obtain ⟨id, record⟩ := e
    rw [setLoop1, List.map_cons, setStep1]
    cases hconv : libdnsRecordToNjalla record z with
    | error er => simp [collectOk, discardsAcc]
    | ok nr =>
      dsimp only
      cases hedit : tp.editResp (mkEditReq id z nr) with
      | error er => simp [collectOk, discardsAcc]
      | ok resp =>
        dsimp only
        cases hdec : njallaRecordToLibdns resp with
        | error er => simp [collectOk, discardsAcc]
        | ok updated =>
          dsimp only
          rw [collectOk]
          refine ⟨(ih _ _).1, ?_⟩
          rw [(ih (acc ++ [updated]) _).2]
          cases hcol : (collectOk (rest.map (setStep1 tp z))).2 with
          | none => simp
          | some er =>
            dsimp only
            by_cases hdis : discardsAcc er = true
            · rw [if_pos hdis, if_pos hdis]
            · rw [if_neg hdis, if_neg hdis]
              simp

/-- The second SetRecords loop: same contract as the first, with the
missing-id consistency failure also dropping the accumulator. -/
theorem setLoop2_spec (tp : Transport) (z : String)
    (exByKey : List (String × LRecord)) :
    ∀ (rs : List LRecord) (acc : List LRecord) (calls : List CallTag),
      (setLoop2 tp z exByKey rs acc calls).err =
          (collectOk (rs.map (setStep2 tp z exByKey))).2 ∧
      (setLoop2 tp z exByKey rs acc calls).recs =
          (match (collectOk (rs.map (setStep2 tp z exByKey))).2 with
            | some e => if discardsAcc e then [] else
                acc ++ (collectOk (rs.map (setStep2 tp z exByKey))).1
            | none => acc ++ (collectOk (rs.map (setStep2 tp z exByKey))).1) := by
  intro rs
  induction rs with
  | nil => intro acc calls; simp [setLoop2, collectOk]
  | cons r rest ih =>
    intro acc calls
    rw [setLoop2, List.map_cons, setStep2]
    cases hconv : libdnsRecordToNjalla r z with
    | error er => simp [collectOk, discardsAcc]
    | ok nr =>
      dsimp only
      cases hlook : lookupA exByKey (recKey r) with
      | some exRec =>
        dsimp only
        by_cases hid : extractRecordID exRec = ""
        · rw [if_pos hid, if_pos hid]
          simp [collectOk, discardsAcc]
        · rw [if_neg hid, if_neg hid]
          cases hedit : tp.editResp (mkEditReq (extractRecordID exRec) z nr) with
          | error er => simp [collectOk, discardsAcc]
          | ok resp =>
            dsimp only
            cases hdec : njallaRecordToLibdns resp with
            | error er => simp [collectOk, discardsAcc]
            | ok updated =>
              dsimp only
              rw [collectOk]
              refine ⟨(ih _ _).1, ?_⟩
              rw [(ih (acc ++ [updated]) _).2]
              cases hcol : (collectOk (rest.map (setStep2 tp z exByKey))).2 with
              | none => simp
              | some er =>
                dsimp only
                by_cases hdis : discardsAcc er = true
                · rw [if_pos hdis, if_pos hdis]
                · rw [if_neg hdis, if_neg hdis]
                  simp
      | none =>
        dsimp only
        cases hadd : tp.addResp (mkAddReq z nr) with
        | error er => simp [collectOk, discardsAcc]
        | ok resp =>
          dsimp only
          cases hdec : njallaRecordToLibdns resp with
          | error er => simp [collectOk, discardsAcc]
          | ok created =>
            dsimp only
            rw [collectOk]
            refine ⟨(ih _ _).1, ?_⟩
            rw [(ih (acc ++ [created]) _).2]
            cases hcol : (collectOk (rest.map (setStep2 tp z exByKey))).2 with
            | none => simp
            | some er =>
              dsimp only
              by_cases hdis : discardsAcc er = true
              · rw [if_pos hdis, if_pos hdis]
              · rw [if_neg hdis, if_neg hdis]
                simp

/-- The DeleteRecords loop returns the accumulator extended by the run of
successful removals over the id-keyed entries, skipping key entries. -/
theorem delLoop_spec (tp : Transport) (z : String) :
    ∀ (entries : List (String × LRecord)) (acc : List LRecord)
      (calls : List CallTag),
      (delLoop tp z entries acc calls).recs =
          acc ++ (collectOk ((entries.filter
            (fun p => isRecordID p.1)).map (delStep tp z))).1 ∧
      (delLoop tp z entries acc calls).err =
          (collectOk ((entries.filter
            (fun p => isRecordID p.1)).map (delStep tp z))).2 := by
  intro entries
  induction entries with
  | nil => intro acc calls; simp [delLoop, collectOk]
  | cons e rest ih =>
    intro acc calls
    obtain ⟨id, record⟩ := e
    rw [delLoop]
    by_cases hid : isRecordID id = true
    · rw [if_pos hid, List.filter_cons, if_pos (by simpa using hid)]
      rw [List.map_cons, delStep]
      dsimp only
      cases hrem : tp.removeResp ⟨z, id⟩ with
      | error er => simp [collectOk]
      | ok u =>
        dsimp only
        rw [collectOk]
        have h := ih (acc ++ [record])
          (calls ++ [CallTag.removeRecord ⟨z, id⟩])
        refine ⟨?_, h.2⟩
        rw [h.1]
        simp
    · rw [if_neg hid, List.filter_cons, if_neg (by simpa using hid)]
      exact ih acc calls

/-- collectOk over an append: an error in the front part hides the back
part, otherwise the successes concatenate and the back error is kept. -/
theorem collectOk_append :
    ∀ l1 l2 : List (Except OpErr LRecord),
      collectOk (l1 ++ l2) =
        (match (collectOk l1).2 with
          | some _ => collectOk l1
          | none => ((collectOk l1).1 ++ (collectOk l2).1, (collectOk l2).2)) := by
  intro l1
  induction l1 with
  | nil => intro l2; simp [collectOk]
  | cons x rest ih =>
    intro l2
    cases x with
    | error e => simp [collectOk]
    | ok r =>
      rw [List.cons_append, collectOk, collectOk, ih l2]
      cases hcol : (collectOk rest).2 with
      | none => simp
      | some e => simp [hcol]

/-- When every record carries an extractable id, the partition leaves the
without-ids accumulator untouched. -/
theorem partition_all_ids :
    ∀ (rs : List LRecord) (m : List (String × LRecord)) (w : List LRecord),
      (∀ r ∈ rs, extractRecordID r ≠ "") →
      (rs.foldl partStep (m, w)).2 = w := by
  intro rs
  induction rs with
  | nil => intro m w _; rfl
  | cons r rest ih =>
    intro m w hall
    rw [List.foldl_cons, partStep, if_pos (hall r (List.mem_cons_self _ _))]
    exact ih _ w (fun x hx => hall x (List.mem_cons_of_mem _ hx))

/-- The first SetRecords loop only ever issues edit-record calls. -/
theorem setLoop1_calls (tp : Transport) (z : String) :
    ∀ (entries : List (String × LRecord)) (acc : List LRecord)
      (calls : List CallTag) (c : CallTag),
      c ∈ (setLoop1 tp z entries acc calls).calls →
      c ∈ calls ∨ ∃ req, c = CallTag.editRecord req := by
  intro entries
  induction entries with
  | nil => intro acc calls c hc; exact Or.inl hc
  | cons e rest ih =>
    intro acc calls c hc
    obtain ⟨id, record⟩ := e
    rw [setLoop1] at hc
    cases hconv : libdnsRecordToNjalla record z with
    | error er => rw [hconv] at hc; exact Or.inl hc
    | ok nr =>
      rw [hconv] at hc
      dsimp only at hc
      cases hedit : tp.editResp (mkEditReq id z nr) with
      | error er =>
        rw [hedit] at hc
        dsimp only at hc
        rcases List.mem_append.mp hc with h | h
        · exact Or.inl h
        · exact Or.inr ⟨_, (List.mem_singleton.mp h)⟩
      | ok resp =>
        rw [hedit] at hc
        dsimp only at hc
        cases hdec : njallaRecordToLibdns resp with
        | error er =>
          rw [hdec] at hc
          dsimp only at hc
          rcases List.mem_append.mp hc with h | h
          · exact Or.inl h
          · exact Or.inr ⟨_, (List.mem_singleton.mp h)⟩
        | ok updated =>
          rw [hdec] at hc
          dsimp only at hc
          rcases ih _ _ c hc with h | h
          · rcases List.mem_append.mp h with h2 | h2
            · exact Or.inl h2
            · exact Or.inr ⟨_, (List.mem_singleton.mp h2)⟩
          · exact Or.inr h

/-- The second SetRecords loop on an empty batch returns unchanged. -/
theorem setLoop2_nil (tp : Transport) (z : String)
    (exByKey : List (String × LRecord)) (acc : List LRecord)
    (calls : List CallTag) :
    setLoop2 tp z exByKey [] acc calls = ⟨acc, none, calls⟩ := rfl

/-- Converting a list whose members all decode with a property yields the
decoded list with that property. -/
theorem convertList_ok {P : LRecord → Prop} :
    ∀ listed : List NjallaRecord,
      (∀ nr ∈ listed, ∃ rec, njallaRecordToLibdns nr = .ok rec ∧ P rec) →
      ∃ ex, convertList listed = .ok ex ∧ ∀ rec ∈ ex, P rec := by
  intro listed
  induction listed with
  | nil => intro _; exact ⟨[], rfl, by simp⟩
  | cons nr rest ih =>
    intro hall
    obtain ⟨rec, hdec, hp⟩ := hall nr (List.mem_cons_self _ _)
    obtain ⟨ex, hex, hpex⟩ := ih (fun x hx => hall x (List.mem_cons_of_mem _ hx))
    refine ⟨rec :: ex, ?_, ?_⟩
    · rw [convertList, hdec, hex]
    · intro x hx
      rcases List.mem_cons.mp hx with rfl | hx
      · exact hp
      · exact hpex x hx

/-- A reconciliation key always contains the separator bar, so it is
never taken for a record id. -/
theorem recKey_not_id (rec : LRecord) : isRecordID (recKey rec) = false := by
  rw [isRecordID, recKey]
  have hmem : '|' ∈ (rrName rec ++ "|" ++ rrType rec).data := by
    rw [String.data_append, String.data_append]
    exact List.mem_append.mpr
      (Or.inl (List.mem_append.mpr (Or.inr (List.mem_singleton.mpr rfl))))
  simp [hmem]

/-- The matching pass leaves a single-key map untouched when no fetched
record shares that reconciliation key. -/
theorem matchExisting_no_match (r : LRecord) :
    ∀ ex : List LRecord, (∀ rec ∈ ex, recKey rec ≠ recKey r) →
      matchExisting [(recKey r, r)] ex = [(recKey r, r)] := by
  have hstep : ∀ exRec, recKey exRec ≠ recKey r →
      lookupA [(recKey r, r)] (recKey exRec) = (none : Option LRecord) := by
    intro exRec hne
    rw [lookupA, List.find?]
    have : (recKey r == recKey exRec) = false := by
      simp [hne.symm]
    rw [this]
    rfl
  intro ex
  induction ex with
  | nil => intro _; rfl
  | cons exRec rest ih =>
    intro hall
    rw [matchExisting, List.foldl_cons]
    have h1 := hstep exRec (hall exRec (List.mem_cons_self _ _))
    dsimp only
    rw [h1]
    exact ih (fun x hx => hall x (List.mem_cons_of_mem _ hx))

/-- C1 counterexample: SetRecords does not always return the prefix of
successfully processed results.  With a batch of one convertible TXT
record (which alone processes successfully, issuing a create that
succeeds) followed by an unsupported record, the conversion failure on
the second item makes SetRecords return an empty slice, discarding the
first item's successful result, together with the conversion error. -/
theorem setRecords_discards_counterexample :
    (setRecords
        { listResp := .ok []
          addResp := fun req => .ok
            ⟨"new1", "example.com", "TXT", req.name, req.content, 300,
              0, 0, 0, "", ""⟩
          editResp := fun _ => .error "unused"
          removeResp := fun _ => .ok () } "example.com"
        [.txt "a" 300000000000 "hello" (.strMap [("x", "y")])]).recs =
      [.txt "a" 300000000000 "hello" (.strMap [("id", "new1")])] ∧
    (setRecords
        { listResp := .ok []
          addResp := fun req => .ok
            ⟨"new1", "example.com", "TXT", req.name, req.content, 300,
              0, 0, 0, "", ""⟩
          editResp := fun _ => .error "unused"
          removeResp := fun _ => .ok () } "example.com"
        [.txt "a" 300000000000 "hello" (.strMap [("x", "y")]),
          .unsupported "b" 0 "WEIRD" "d"]).recs = [] ∧
    (setRecords
        { listResp := .ok []
          addResp := fun req => .ok
            ⟨"new1", "example.com", "TXT", req.name, req.content, 300,
              0, 0, 0, "", ""⟩
          editResp := fun _ => .error "unused"
          removeResp := fun _ => .ok () } "example.com"
        [.txt "a" 300000000000 "hello" (.strMap [("x", "y")]),
          .unsupported "b" 0 "WEIRD" "d"]).err =
      some (.convertRec "unsupported record type") := by
  refine ⟨?_, ?_, ?_⟩ <;> rfl

/-- C1 (amended): AppendRecords returns exactly the run of per-item
successes before the first failure together with that failure;
DeleteRecords does the same over its resolved id entries (its lookup
failure can only happen before anything is accumulated); SetRecords does
the same for remote-call and response-decode failures, but a conversion
failure or the missing-id consistency failure makes it return an empty
slice, discarding the accumulated results, and a lookup failure returns
empty with the lookup error. -/
theorem batch_partial_results (tp : Transport) (zone : String)
    (rs : List LRecord) :
    ((appendRecords tp zone rs).recs =
        (collectOk (rs.map (appendStep tp (strTrimSuffix zone ".")))).1 ∧
      (appendRecords tp zone rs).err =
        (collectOk (rs.map (appendStep tp (strTrimSuffix zone ".")))).2) ∧
    (∀ ex cs,
      setFetch tp (strTrimSuffix zone ".") (partitionRecs rs).2 =
          (.ok ex, cs) →
      (setRecords tp zone rs).recs =
          (applyDiscard (collectOk
            ((partitionRecs rs).1.map (setStep1 tp (strTrimSuffix zone ".")) ++
              (partitionRecs rs).2.map
                (setStep2 tp (strTrimSuffix zone ".") ex)))).1 ∧
      (setRecords tp zone rs).err =
          (applyDiscard (collectOk
            ((partitionRecs rs).1.map (setStep1 tp (strTrimSuffix zone ".")) ++
              (partitionRecs rs).2.map
                (setStep2 tp (strTrimSuffix zone ".") ex)))).2) ∧
    (∀ e cs,
      setFetch tp (strTrimSuffix zone ".") (partitionRecs rs).2 =
          (.error e, cs) →
      (setRecords tp zone rs).recs = [] ∧
      (setRecords tp zone rs).err = some e) ∧
    ((rs.foldl delPartStep ([], [])).2 = [] →
      (deleteRecords tp zone rs).recs =
          (collectOk (((rs.foldl delPartStep ([], [])).1.filter
            (fun p => isRecordID p.1)).map
              (delStep tp (strTrimSuffix zone ".")))).1 ∧
      (deleteRecords tp zone rs).err =
          (collectOk (((rs.foldl delPartStep ([], [])).1.filter
            (fun p => isRecordID p.1)).map
              (delStep tp (strTrimSuffix zone ".")))).2) ∧
    (∀ ex cs, (rs.foldl delPartStep ([], [])).2 ≠ [] →
      getRecords tp (strTrimSuffix zone ".") = (.ok ex, cs) →
      (deleteRecords tp zone rs).recs =
          (collectOk (((matchExisting (rs.foldl delPartStep ([], [])).1
            ex).filter (fun p => isRecordID p.1)).map
              (delStep tp (strTrimSuffix zone ".")))).1 ∧
      (deleteRecords tp zone rs).err =
          (collectOk (((matchExisting (rs.foldl delPartStep ([], [])).1
            ex).filter (fun p => isRecordID p.1)).map
              (delStep tp (strTrimSuffix zone ".")))).2) := by
  refine ⟨?_, ?_, ?_, ?_, ?_⟩
  · have h := appendLoop_spec tp (strTrimSuffix zone ".") rs [] []
    rw [appendRecords]
    exact ⟨by rw [h.1]; simp, h.2⟩
  · intro ex cs hfetch
    rw [setRecords]
    dsimp only
    rw [hfetch]
    dsimp only
    have h1 := setLoop1_spec tp (strTrimSuffix zone ".")
      (partitionRecs rs).1 [] cs
    rw [collectOk_append]
    cases herr : (setLoop1 tp (strTrimSuffix zone ".")
        (partitionRecs rs).1 [] cs).err with
    | some e =>
      have hA : (collectOk ((partitionRecs rs).1.map
          (setStep1 tp (strTrimSuffix zone ".")))).2 = some e := by
        rw [← h1.1, herr]
      rw [hA]
      dsimp only
      rw [applyDiscard, hA]
      dsimp only
      have hrecs := h1.2
      rw [hA] at hrecs
      dsimp only at hrecs
      by_cases hdis : discardsAcc e = true
      · rw [if_pos hdis] at hrecs ⊢
        exact ⟨hrecs, by rw [herr]⟩
      · rw [if_neg hdis] at hrecs ⊢
        rw [List.nil_append] at hrecs
        exact ⟨hrecs, h1.1⟩
    | none =>
      have hA : (collectOk ((partitionRecs rs).1.map
          (setStep1 tp (strTrimSuffix zone ".")))).2 = none := by
        rw [← h1.1, herr]
      rw [hA]
      dsimp only
      have h2 := setLoop2_spec tp (strTrimSuffix zone ".") ex
        (partitionRecs rs).2
        (setLoop1 tp (strTrimSuffix zone ".") (partitionRecs rs).1 [] cs).recs
        (setLoop1 tp (strTrimSuffix zone ".") (partitionRecs rs).1 [] cs).calls
      have hrecs1 : (setLoop1 tp (strTrimSuffix zone ".")
          (partitionRecs rs).1 [] cs).recs =
            (collectOk ((partitionRecs rs).1.map
              (setStep1 tp (strTrimSuffix zone ".")))).1 := by
        rw [h1.2, hA]
        simp
      rw [applyDiscard]
      dsimp only
      cases hB : (collectOk ((partitionRecs rs).2.map
          (setStep2 tp (strTrimSuffix zone ".") ex))).2 with
      | some e =>
        dsimp only
        have hrecs := h2.2
        rw [hB] at hrecs
        dsimp only at hrecs
        by_cases hdis : discardsAcc e = true
        · rw [if_pos hdis] at hrecs ⊢
          exact ⟨hrecs, by rw [h2.1, hB]⟩
        · rw [if_neg hdis] at hrecs ⊢
          exact ⟨by rw [hrecs, hrecs1], by rw [h2.1, hB]⟩
      | none =>
        dsimp only
        have hrecs := h2.2
        rw [hB] at hrecs
        dsimp only at hrecs
        exact ⟨by rw [hrecs, hrecs1], by rw [h2.1, hB]⟩
  · intro e cs hfetch
    rw [setRecords]
    dsimp only
    rw [hfetch]
    exact ⟨rfl, rfl⟩
  · intro hpart
    rw [deleteRecords]
    rw [if_pos (by simp [hpart])]
    have h := delLoop_spec tp (strTrimSuffix zone ".")
      (rs.foldl delPartStep ([], [])).1 [] []
    exact ⟨by rw [h.1]; simp, h.2⟩
  · intro ex cs hne hget
    rw [deleteRecords]
    rw [if_neg (by simpa using hne), hget]
    dsimp only
    have h := delLoop_spec tp (strTrimSuffix zone ".")
      (matchExisting (rs.foldl delPartStep ([], [])).1 ex) [] cs
    exact ⟨by rw [h.1]; simp, h.2⟩

/-- Witness for batch_partial_results: the one-record create scenario of
the counterexample run through the Set characterization. -/
theorem batch_partial_results_witness :
    (setRecords
        { listResp := .ok []
          addResp := fun req => .ok
            ⟨"new1", "example.com", "TXT", req.name, req.content, 300,
              0, 0, 0, "", ""⟩
          editResp := fun _ => .error "unused"
          removeResp := fun _ => .ok () } "example.com"
        [.txt "a" 300000000000 "hello" (.strMap [("x", "y")])]).recs =
      (applyDiscard (collectOk
        (((partitionRecs
            [.txt "a" 300000000000 "hello" (.strMap [("x", "y")])]).1.map
          (setStep1
            { listResp := .ok []
              addResp := fun req => .ok
                ⟨"new1", "example.com", "TXT", req.name, req.content, 300,
                  0, 0, 0, "", ""⟩
              editResp := fun _ => .error "unused"
              removeResp := fun _ => .ok () }
            (strTrimSuffix "example.com" "."))) ++
          ((partitionRecs
            [.txt "a" 300000000000 "hello" (.strMap [("x", "y")])]).2.map
          (setStep2
            { listResp := .ok []
              addResp := fun req => .ok
                ⟨"new1", "example.com", "TXT", req.name, req.content, 300,
                  0, 0, 0, "", ""⟩
              editResp := fun _ => .error "unused"
              removeResp := fun _ => .ok () }
            (strTrimSuffix "example.com" ".") []))))).1 :=
  ((batch_partial_results
      { listResp := .ok []
        addResp := fun req => .ok
          ⟨"new1", "example.com", "TXT", req.name, req.content, 300,
            0, 0, 0, "", ""⟩
        editResp := fun _ => .error "unused"
        removeResp := fun _ => .ok () } "example.com"
      [.txt "a" 300000000000 "hello" (.strMap [("x", "y")])]).2.1
    [] [.listRecords "example.com"] rfl).1

/-- C6: when every input record carries an identity token, SetRecords
issues no list-records call; in particular, with a single input record
carrying an id (that encodes successfully), the whole run issues exactly
one edit-record call and no list-records or add-record calls. -/
theorem setRecords_skips_list (tp : Transport) (zone : String)
    (rs : List LRecord) (hall : ∀ r ∈ rs, extractRecordID r ≠ "") :
    (∀ d, CallTag.listRecords d ∉ (setRecords tp zone rs).calls) ∧
    (∀ r id nr, rs = [r] → extractRecordID r = id → id ≠ "" →
      libdnsRecordToNjalla r (strTrimSuffix zone ".") = .ok nr →
      (setRecords tp zone rs).calls =
        [.editRecord (mkEditReq id (strTrimSuffix zone ".") nr)]) := by
  have hw : (partitionRecs rs).2 = [] := partition_all_ids rs [] [] hall
  have hcalls : (setRecords tp zone rs).calls =
      (setLoop1 tp (strTrimSuffix zone ".") (partitionRecs rs).1 [] []).calls := by
    rw [setRecords]
    dsimp only
    rw [hw]
    rw [show setFetch tp (strTrimSuffix zone ".") [] =
      ((.ok [] : Except OpErr (List (String × LRecord))), []) from rfl]
    dsimp only
    cases herr : (setLoop1 tp (strTrimSuffix zone ".")
        (partitionRecs rs).1 [] []).err with
    | some e => rfl
    | none => rw [setLoop2_nil]
  constructor
  · intro d hmem
    rw [hcalls] at hmem
    rcases setLoop1_calls tp (strTrimSuffix zone ".")
        (partitionRecs rs).1 [] [] _ hmem with h | ⟨req, hreq⟩
    · exact absurd h (List.not_mem_nil _)
    · cases hreq
  · intro r id nr hrs hid hne hconv
    subst hrs
    have hpart : partitionRecs [r] = ([(id, r)], []) := by
      rw [partitionRecs, List.foldl_cons, List.foldl_nil, partStep]
      rw [hid, if_pos hne]
      rfl
    rw [hcalls, hpart]
    dsimp only
    rw [setLoop1, hconv]
    dsimp only
    cases hedit : tp.editResp (mkEditReq id (strTrimSuffix zone ".") nr) with
    | error e => rfl
    | ok resp =>
      dsimp only
      cases hdec : njallaRecordToLibdns resp with
      | error e => rfl
      | ok updated => rfl

/-- Witness for setRecords_skips_list: one Address record with a known
id issues exactly one edit-record call. -/
theorem setRecords_skips_list_witness :
    (setRecords
        { listResp := .error "unused"
          addResp := fun _ => .error "unused"
          editResp := fun req => .ok
            ⟨req.id, req.domain, req.typ, req.name, req.content, req.ttl,
              0, 0, 0, "", ""⟩
          removeResp := fun _ => .ok () } "example.com"
        [.address "test" 3600000000000 (.v4 192 0 2 1)
          (.strMap [("id", "abc123")])]).calls =
      [.editRecord (mkEditReq "abc123" (strTrimSuffix "example.com" ".")
        ⟨"abc123", "example.com", "A", "test", "192.0.2.1", 3600, 0, 0, 0,
          "", ""⟩)] :=
  (setRecords_skips_list
      { listResp := .error "unused"
        addResp := fun _ => .error "unused"
        editResp := fun req => .ok
          ⟨req.id, req.domain, req.typ, req.name, req.content, req.ttl,
            0, 0, 0, "", ""⟩
        removeResp := fun _ => .ok () } "example.com"
      [.address "test" 3600000000000 (.v4 192 0 2 1)
        (.strMap [("id", "abc123")])]
      (by intro r hr
          simp only [List.mem_singleton] at hr
          subst hr
          decide)).2
    (.address "test" 3600000000000 (.v4 192 0 2 1)
      (.strMap [("id", "abc123")])) "abc123"
    ⟨"abc123", "example.com", "A", "test", "192.0.2.1", 3600, 0, 0, 0,
      "", ""⟩
    rfl rfl (by decide) rfl

/-- C7: a DeleteRecords input record without an identity token whose
reconciliation key matches no fetched remote record is silently skipped:
the result set is empty, no error is returned, and no remove-record call
is issued (only the one list-records lookup happens). -/
theorem deleteRecords_skips_missing (tp : Transport) (zone : String)
    (r : LRecord) (listed : List NjallaRecord)
    (h1 : extractRecordID r = "")
    (h2 : tp.listResp = .ok listed)
    (h3 : ∀ nr ∈ listed, ∃ rec, njallaRecordToLibdns nr = .ok rec ∧
        recKey rec ≠ recKey r) :
    (deleteRecords tp zone [r]).recs = [] ∧
    (deleteRecords tp zone [r]).err = none ∧
    ∀ q, CallTag.removeRecord q ∉ (deleteRecords tp zone [r]).calls := by
  obtain ⟨ex, hconv, hprop⟩ := convertList_ok listed h3
  have hfold : [r].foldl delPartStep ([], []) =
      ([(recKey r, r)], [recKey r]) := by
    rw [List.foldl_cons, List.foldl_nil, delPartStep, h1]
    rfl
  have hget : getRecords tp (strTrimSuffix zone ".") =
      (.ok ex, [.listRecords (strTrimSuffix (strTrimSuffix zone ".") ".")]) := by
    rw [getRecords, h2]
    dsimp only
    rw [hconv]
  have hres : deleteRecords tp zone [r] =
      ⟨[], none, [.listRecords (strTrimSuffix (strTrimSuffix zone ".") ".")]⟩ := by
    rw [deleteRecords]
    rw [hfold]
    rw [if_neg (by simp), hget]
    dsimp only
    rw [matchExisting_no_match r ex hprop, delLoop,
      if_neg (by rw [recKey_not_id]; exact Bool.false_ne_true), delLoop]
  rw [hres]
  refine ⟨rfl, rfl, ?_⟩
  intro q hq
  simp only [List.mem_singleton] at hq
  cases hq

/-- Witness for deleteRecords_skips_missing: deleting a TXT record absent
from an empty zone returns nothing and issues no remove call. -/
theorem deleteRecords_skips_missing_witness :
    (deleteRecords
        { listResp := .ok []
          addResp := fun _ => .error "unused"
          editResp := fun _ => .error "unused"
          removeResp := fun _ => .ok () } "example.com"
        [.txt "test" 0 "v" .absent]).recs = [] ∧
    (deleteRecords
        { listResp := .ok []
          addResp := fun _ => .error "unused"
          editResp := fun _ => .error "unused"
          removeResp := fun _ => .ok () } "example.com"
        [.txt "test" 0 "v" .absent]).err = none :=
  let h := deleteRecords_skips_missing
    { listResp := .ok []
      addResp := fun _ => .error "unused"
      editResp := fun _ => .error "unused"
      removeResp := fun _ => .ok () } "example.com"
    (.txt "test" 0 "v" .absent) [] rfl rfl (by simp)
  ⟨h.1, h.2.1⟩

/-- C10: two input records carrying the same identity token collapse to
one entry of the recordsByKey map (the later record wins), so SetRecords
issues exactly one edit-record call for that token, built from the later
record, and returns a single result for the pair. -/
theorem setRecords_dedups_ids (tp : Transport) (zone : String)
    (r1 r2 : LRecord) (t : String) (nr2 resp : NjallaRecord)
    (rec2 : LRecord)
    (h1 : extractRecordID r1 = t) (h2 : extractRecordID r2 = t)
    (ht : t ≠ "")
    (hconv : libdnsRecordToNjalla r2 (strTrimSuffix zone ".") = .ok nr2)
    (hedit : tp.editResp (mkEditReq t (strTrimSuffix zone ".") nr2) =
        .ok resp)
    (hdec : njallaRecordToLibdns resp = .ok rec2) :
    setRecords tp zone [r1, r2] =
      ⟨[rec2], none,
        [.editRecord (mkEditReq t (strTrimSuffix zone ".") nr2)]⟩ := by
  have hpart : partitionRecs [r1, r2] = ([(t, r2)], []) := by
    rw [partitionRecs, List.foldl_cons, partStep, h1, if_pos ht]
    rw [List.foldl_cons, List.foldl_nil, partStep, h2, if_pos ht]
    rw [show insertA [] t r1 = [(t, r1)] from rfl]
    rw [show insertA [(t, r1)] t r2 = [(t, r2)] from by
      rw [insertA, if_pos rfl]]
  rw [setRecords]
  dsimp only
  rw [hpart]
  dsimp only
  rw [show setFetch tp (strTrimSuffix zone ".") [] =
    ((.ok [] : Except OpErr (List (String × LRecord))), []) from rfl]
  dsimp only
  rw [setLoop1, hconv]
  dsimp only
  rw [hedit]
  dsimp only
  rw [hdec]
  dsimp only
  rw [setLoop1]
  dsimp only
  rw [setLoop2_nil]
  simp

/-- Witness for setRecords_dedups_ids: two TXT records with the same id
produce one edit call carrying the later record's content. -/
theorem setRecords_dedups_ids_witness :
    setRecords
        { listResp := .error "unused"
          addResp := fun _ => .error "unused"
          editResp := fun req => .ok
            ⟨req.id, req.domain, req.typ, req.name, req.content, req.ttl,
              0, 0, 0, "", ""⟩
          removeResp := fun _ => .ok () } "example.com"
        [.txt "a" 0 "va" (.strMap [("id", "tok")]),
          .txt "a" 0 "vb" (.strMap [("id", "tok")])] =
      ⟨[.txt "a" 0 "vb" (.strMap [("id", "tok")])], none,
        [.editRecord (mkEditReq "tok" (strTrimSuffix "example.com" ".")
          ⟨"tok", "example.com", "TXT", "a", "vb", 0, 0, 0, 0, "", ""⟩)]⟩ :=
  setRecords_dedups_ids
    { listResp := .error "unused"
      addResp := fun _ => .error "unused"
      editResp := fun req => .ok
        ⟨req.id, req.domain, req.typ, req.name, req.content, req.ttl,
          0, 0, 0, "", ""⟩
      removeResp := fun _ => .ok () } "example.com"
    (.txt "a" 0 "va" (.strMap [("id", "tok")]))
    (.txt "a" 0 "vb" (.strMap [("id", "tok")])) "tok"
    ⟨"tok", "example.com", "TXT", "a", "vb", 0, 0, 0, 0, "", ""⟩
    ⟨"tok", "example.com", "TXT", "a", "vb", 0, 0, 0, 0, "", ""⟩
    (.txt "a" 0 "vb" (.strMap [("id", "tok")]))
    rfl rfl (by decide) rfl rfl rfl

end Njalla
